import Mathlib

/-!
Verification of the knowledge-representation core of the pacman-agents
repository: the FOL term/predicate/unification machinery
(`src/agents/FOL/fol_components.py`), the per-agent fact stores and TELL/ASK
logic of the vacuum agent (`src/agents/FOL/vacuum_kb_fol_agent.py`) and the
three ghosts (`src/ghosts/ghost_a/ghost_a_kb.py`, `ghost_b/ghost_b_kb.py`,
`ghost_c/ghost_c_kb.py`), and the breadth-first pathfinder
(`src/utils/path_utils.py`).

Conventions of the embedding:
* Python `int` is `Int`; coordinates are `Int × Int`.
* Python `set`s of hashable values are `List`s with purely membership-based
  operations (`insert if absent` / `filter`); where the source reads an
  element *out* of a set (iteration order), the embedding uses list order and
  any theorem proved about such a spot is order-robust unless noted.
* Python `dict`s keyed by variables are association lists keyed by the
  variable name (Python hashes `Variable` by name).
* The process-global `random` module is modelled as a deterministic stream
  `Nat → Nat` together with a cursor counting the draws consumed so far by
  the whole process; `random.choice(seq)` reads the stream at the cursor and
  advances it.  This captures exactly the property the source exhibits:
  module-level `random.choice`/`random.shuffle` calls share one mutable
  generator state across all agents.
* Raising an exception is `Except.error`; functions that cannot raise are
  total.
-/

/-! ## 1. Terms and predicates (`fol_components.py`) -/

/-- A Python scalar stored in a `Constant` (coordinates are ints, agent
identifiers are strings). -/
inductive Val where
  | i (n : Int)
  | s (v : String)
deriving DecidableEq, Repr

/-- FOL terms: `Constant(value)` or `Variable(name)`. -/
inductive Term where
  | const (v : Val)
  | var (name : String)
deriving DecidableEq, Repr

/-- The concrete `Predicate` subclasses that occur in the sources.  Python
dispatches on the runtime class (`type(query) != type(fact)`); the closed
enum plays that role. -/
inductive PredName where
  | Position | DirtAt | Blocked
  | LearnedWall | LearnedSafe | PacmanPos
  | VisitedAtTime | EscapeState | LastPos | UnreachableGoal
  | PacmanVector | GhostPos
deriving DecidableEq, Repr

/-- One positional argument of a predicate.  Normally a `Term`, but Python
lets any object through: `LastPos.__init__` passes the raw string
`"LastPos"` as an argument, which is neither a `Constant` nor a `Variable`. -/
inductive Arg where
  | t (x : Term)
  | raw (v : String)
deriving DecidableEq, Repr

/-- A predicate instance: its concrete class plus the argument tuple.
Structural equality on `(class, args)` mirrors `Predicate.__eq__`. -/
structure FolPred where
  name : PredName
  args : List Arg
deriving DecidableEq, Repr

/-- `isinstance(arg, Constant)`. -/
def Arg.isConst : Arg → Bool
  | .t (.const _) => true
  | _ => false

/-- `Predicate.is_ground`: all arguments are `Constant`s. -/
def FolPred.is_ground (p : FolPred) : Bool := p.args.all Arg.isConst

/-! ## 2. Unification (`fol_components.unify`) -/

/-- A substitution: Python builds a `dict` keyed by `Variable` (hashed by
name), valued by `Constant`s. -/
abbrev Subst := List (String × Val)

/-- Lookup in the substitution dict. -/
def substLookup (s : Subst) (x : String) : Option Val :=
  match s with
  | [] => none
  | (y, v) :: rest => if y = x then some v else substLookup rest x

/-- The argument-pair loop of `unify`.  A `Constant` in the query must equal
the `Constant` in the fact; a `Variable` must bind consistently to a
`Constant`; an argument that is neither (a raw Python value) matches both
`isinstance` checks negatively and the pair is silently skipped. -/
def unifyArgs : List Arg → List Arg → Subst → Option Subst
  | [], [], acc => some acc
  | qa :: qs, fa :: fs, acc =>
    match qa with
    | .t (.const v) =>
      match fa with
      | .t (.const w) => if v = w then unifyArgs qs fs acc else none
      | _ => none
    | .t (.var x) =>
      match fa with
      | .t (.const w) =>
        match substLookup acc x with
        | some w' => if w' = w then unifyArgs qs fs acc else none
        | none => unifyArgs qs fs ((x, w) :: acc)
      | _ => none
    | .raw _ => unifyArgs qs fs acc
  | _, _, _ => none

/-- `unify(query, fact)`: `None` on class or arity mismatch, else the
accumulated variable→constant mapping. -/
def unify (query fact : FolPred) : Option Subst :=
  if query.name = fact.name then
    if query.args.length = fact.args.length then unifyArgs query.args fact.args []
    else none
  else none

/-! ## 3. Fact stores

Every KB owns a Python `set` of ground predicates.  The embedding is a list
with set semantics: `insertFact` is `set.add`, `discardFact` is
`set.discard`, `retractMatching` is the retract-by-unification loop shared by
`KnowledgeBaseC._retract`. -/

abbrev Facts := List FolPred

def insertFact (fs : Facts) (p : FolPred) : Facts :=
  if p ∈ fs then fs else fs ++ [p]

def discardFact (fs : Facts) (p : FolPred) : Facts :=
  fs.filter (fun f => f ≠ p)

/-- `KnowledgeBaseC._retract`: remove every fact that unifies with the
template. -/
def retractMatching (fs : Facts) (tmpl : FolPred) : Facts :=
  fs.filter (fun f => (unify tmpl f).isNone)

/-- `get_unifications` (identical in the vacuum KB and ghost C): one
substitution per stored fact of the query's concrete class that unifies. -/
def get_unifications (fs : Facts) (q : FolPred) : List Subst :=
  fs.filterMap (fun f => if f.name = q.name then unify q f else none)

/-- `KnowledgeBaseC._query_exists`. -/
def queryExists (fs : Facts) (q : FolPred) : Bool :=
  ¬ (get_unifications fs q) = []

/-! ## 4. Predicate constructors used by the agents -/

abbrev Coord := Int × Int

def constI (n : Int) : Arg := .t (.const (.i n))

def constS (v : String) : Arg := .t (.const (.s v))

def varA (x : String) : Arg := .t (.var x)

/-- Any two-argument location predicate `P(x, y)` at a concrete coordinate. -/
def locPred (n : PredName) (p : Coord) : FolPred := ⟨n, [constI p.1, constI p.2]⟩

/-- `VisitedAtTime(x, y, t)`. -/
def visitedP (p : Coord) (t : Int) : FolPred :=
  ⟨.VisitedAtTime, [constI p.1, constI p.2, constI t]⟩

/-- `EscapeState(tx, ty, start_time)`. -/
def escapeP (p : Coord) (t : Int) : FolPred :=
  ⟨.EscapeState, [constI p.1, constI p.2, constI t]⟩

/-- `UnreachableGoal(x, y, timestamp)`. -/
def unreachP (p : Coord) (t : Int) : FolPred :=
  ⟨.UnreachableGoal, [constI p.1, constI p.2, constI t]⟩

/-- `PacmanVector(dx, dy)`. -/
def pacmanVectorP (v : Int × Int) : FolPred :=
  ⟨.PacmanVector, [constI v.1, constI v.2]⟩

/-- `GhostPos(agent_id, x, y)`. -/
def ghostPosP (gid : Val) (p : Coord) : FolPred :=
  ⟨.GhostPos, [.t (.const gid), constI p.1, constI p.2]⟩

/-- `LastPos(ghost_id, x, y)`: the constructor calls
`super().__init__("LastPos", ghost_id, x, y)`, so the raw string `"LastPos"`
is an additional first argument that is not a `Term`. -/
def lastPosP (gid x y : Term) : FolPred :=
  ⟨.LastPos, [.raw "LastPos", .t gid, .t x, .t y]⟩

/-! ## 5. The vacuum agent's KB (`KnowledgeBaseWithFOL`)

Only the fact store and `tell` matter for the claims.  `tell` *raises*
`ValueError` on a non-ground predicate, and treats `Position` as functional:
it drops every stored `Position` fact before inserting. -/

namespace KnowledgeBaseWithFOL

def tell (facts : Facts) (p : FolPred) : Except String Facts :=
  if p.is_ground then
    let facts :=
      if p.name = .Position then facts.filter (fun f => f.name ≠ .Position)
      else facts
    .ok (insertFact facts p)
  else
    .error "Can only tell ground predicates (no variables)"

end KnowledgeBaseWithFOL

/-! ## 6. Pathfinding (`utils/path_utils.py`) -/

/-- `get_neighbors(pos)`: the 4 cardinal neighbours, in source order. -/
def get_neighbors (p : Coord) : List Coord :=
  [(p.1 + 1, p.2), (p.1 - 1, p.2), (p.1, p.2 + 1), (p.1, p.2 - 1)]

/-- The inner `for neighbor in get_neighbors(...)` loop of `bfs_pathfinder`:
first neighbour equal to the goal returns `path + [neighbor]` immediately;
otherwise traversable unvisited neighbours are marked visited and enqueued
(at the tail: `deque.append`). -/
def bfsScan (goal : Coord) (safe : List Coord) (path : List Coord) :
    List Coord → List Coord → List (Coord × List Coord) →
    Option (List Coord) × List Coord × List (Coord × List Coord)
  | [], vis, acc => (none, vis, acc)
  | n :: ns, vis, acc =>
    if n = goal then (some (path ++ [n]), vis, acc)
    else if n ∈ safe ∧ n ∉ vis then
      bfsScan goal safe path ns (n :: vis) (acc ++ [(n, path ++ [n])])
    else bfsScan goal safe path ns vis acc

/-- The `while queue:` loop of `bfs_pathfinder`.  The queue is a FIFO of
`(position, path_list)` entries; `visited` is the visited set.  Python's
loop always terminates because every enqueue marks a fresh node visited; the
fuel is an upper bound on the number of dequeues proved sufficient in
`bfsAux_fuel_ge` below (when the fuel runs out the queue is already empty,
so `none` agrees with the source's fall-through `return None`). -/
def bfsAux (goal : Coord) (safe : List Coord) :
    Nat → List (Coord × List Coord) → List Coord → Option (List Coord)
  | 0, _, _ => none
  | _ + 1, [], _ => none
  | fuel + 1, (cur, path) :: rest, vis =>
    match bfsScan goal safe path (get_neighbors cur) vis [] with
    | (some p, _, _) => some p
    | (none, vis', extra) => bfsAux goal safe fuel (rest ++ extra) vis'

/-- `bfs_pathfinder(start_pos, goal_pos, safe_tiles)`. -/
def bfs_pathfinder (start goal : Coord) (safe : List Coord) :
    Option (List Coord) :=
  if start = goal then some [start]
  else bfsAux goal safe (safe.dedup.length + 1) [(start, [start])] [start]

-- ### C2 spec-side notions

/-- Walks from `start` whose every node after `start` is traversable. -/
inductive Reach (safe : List Coord) (start : Coord) : Coord → Nat → Prop
  | base : Reach safe start start 0
  | step (u v : Coord) (n : Nat) : Reach safe start u n →
      v ∈ get_neighbors u → v ∈ safe → Reach safe start v (n + 1)

/-- What `bfs_pathfinder` actually guarantees about a returned path: it runs
from `start` to `goal` along grid-adjacent tiles and every *interior* tile
is traversable (`start` and `goal` themselves are never checked). -/
def ValidPath (start goal : Coord) (safe : List Coord) (p : List Coord) : Prop :=
  p.head? = some start ∧ p.getLast? = some goal ∧
  p.Chain' (fun a b => b ∈ get_neighbors a) ∧
  ∀ x ∈ (p.drop 1).dropLast, x ∈ safe

/-- Invariant of a BFS queue entry `(node, path)`. -/
def QEntryOK (start : Coord) (safe : List Coord) (e : Coord × List Coord) : Prop :=
  e.2.head? = some start ∧ e.2.getLast? = some e.1 ∧
  e.2.Chain' (fun a b => b ∈ get_neighbors a) ∧
  ∀ x ∈ e.2.drop 1, x ∈ safe

/-- The 3×3 grid of the spec's BFS test, minus its centre `(1, 1)`. -/
def grid8 : List Coord :=
  [(0, 0), (1, 0), (2, 0), (0, 1), (2, 1), (0, 2), (1, 2), (2, 2)]



/-- The neighbour loop of `find_nearest_coord`: a neighbour in the target
set is returned at once; traversable unvisited neighbours are enqueued. -/
def fncScan (targets safe : List Coord) :
    List Coord → List Coord → List Coord →
    Option Coord × List Coord × List Coord
  | [], vis, acc => (none, vis, acc)
  | n :: ns, vis, acc =>
    if n ∈ targets then (some n, vis, acc)
    else if n ∈ safe ∧ n ∉ vis then fncScan targets safe ns (n :: vis) (acc ++ [n])
    else fncScan targets safe ns vis acc

/-- The `while queue:` loop of `find_nearest_coord`. -/
def fncAux (targets safe : List Coord) :
    Nat → List Coord → List Coord → Option Coord
  | 0, _, _ => none
  | _ + 1, [], _ => none
  | fuel + 1, cur :: rest, vis =>
    match fncScan targets safe (get_neighbors cur) vis [] with
    | (some c, _, _) => some c
    | (none, vis', extra) => fncAux targets safe fuel (rest ++ extra) vis'

/-- `find_nearest_coord(start_pos, target_coords, safe_tiles)`. -/
def find_nearest_coord (start : Coord) (targets safe : List Coord) :
    Option Coord :=
  if start ∈ targets then some start
  else if targets = [] ∨ safe = [] then none
  else fncAux targets safe (safe.dedup.length + 1) [start] [start]

/-- `MOVES` from `utils/types_utils.py`, in dict insertion order. -/
def MOVES : List (String × (Int × Int)) :=
  [("UP", (0, -1)), ("DOWN", (0, 1)), ("LEFT", (-1, 0)), ("RIGHT", (1, 0)),
   ("WAIT", (0, 0))]

/-- `get_move_from_path(current_pos, path)`. -/
def get_move_from_path (current : Coord) (path : List Coord) : String :=
  match path with
  | _ :: next :: _ =>
    let d : Int × Int := (next.1 - current.1, next.2 - current.2)
    match MOVES.find? (fun m => m.2 = d) with
    | some m => m.1
    | none => "WAIT"
  | _ => "WAIT"

/-! ## 7. The process-global `random` generator

All three ghost KBs say `import random` and call the module-level
`random.choice` / `random.shuffle`: every call reads and advances the single
generator state shared by the whole process.  `stream` abstracts the
deterministic pseudo-random sequence; `k` is the number of draws the process
has consumed so far (by *any* caller). -/

structure PyRandom where
  stream : Nat → Nat
  k : Nat

/-- `random.choice(seq)` for nonempty `seq`: a deterministic function of the
shared generator state, which it advances by one draw. -/
def pyChoice (l : List α) (h : l ≠ []) (r : PyRandom) : α × PyRandom :=
  (l.get ⟨r.stream r.k % l.length, Nat.mod_lt _ (List.length_pos.mpr h)⟩,
   ⟨r.stream, r.k + 1⟩)

/-! ## 8. Ghost A (`KnowledgeBaseA`, propositional pursuer) -/

abbrev Percept := List (Coord × String)

structure KBA where
  walls : List Coord
  safe_tiles : List Coord
  current_state : String
  last_known_pacman : Option Coord
  last_move : String
  investigation_target : Option Coord
  my_pos : Coord
  see_pacman : Bool
  pacman_pos_percept : Option Coord
deriving Repr, DecidableEq

namespace KnowledgeBaseA

/-- `set.add` on a coordinate set. -/
def addC (l : List Coord) (c : Coord) : List Coord := if c ∈ l then l else l ++ [c]

/-- `set.discard` on a coordinate set. -/
def delC (l : List Coord) (c : Coord) : List Coord := l.filter (fun x => x ≠ c)

/-- `KnowledgeBaseA.__init__`. -/
def init : KBA :=
  { walls := [], safe_tiles := [], current_state := "PATROLLING",
    last_known_pacman := none, last_move := "WAIT", investigation_target := none,
    my_pos := (0, 0), see_pacman := false, pacman_pos_percept := none }

/-- The map-proposition loop of `tell`: WALL adds a wall and discards safe;
anything else adds safe (and does *not* discard wall). -/
def applyPercepts (kb : KBA) (percepts : Percept) : KBA :=
  percepts.foldl
    (fun kb pi =>
      if pi.2 = "WALL" then
        { kb with walls := addC kb.walls pi.1, safe_tiles := delC kb.safe_tiles pi.1 }
      else { kb with safe_tiles := addC kb.safe_tiles pi.1 })
    kb

/-- `_get_neighbors` (same as `path_utils.get_neighbors`). -/
def nbrs (p : Coord) : List Coord := get_neighbors p

/-- `_update_state_logic`: the four transition rules, each ending in
`return`.  Rule 3's investigation target is `random.choice(options)` from
the process-global generator. -/
def update_state_logic (kb : KBA) (r : PyRandom) : KBA × PyRandom :=
  if kb.see_pacman then
    ({ kb with current_state := "CHASING", last_known_pacman := kb.pacman_pos_percept }, r)
  else if kb.current_state = "CHASING" then
    ({ kb with current_state := "PURSUING" }, r)
  else if kb.current_state = "PURSUING" ∧ some kb.my_pos = kb.last_known_pacman then
    let options := (nbrs kb.my_pos).filter (fun n => n ∉ kb.walls)
    if h : options = [] then ({ kb with current_state := "PATROLLING" }, r)
    else
      let c := pyChoice options h r
      ({ kb with current_state := "INVESTIGATING", investigation_target := some c.1 }, c.2)
  else if kb.current_state = "INVESTIGATING" then
    match kb.investigation_target with
    | some t =>
      if kb.my_pos = t then ({ kb with current_state := "PATROLLING" }, r)
      else if t ∈ kb.walls then ({ kb with current_state := "PATROLLING" }, r)
      else (kb, r)
    | none => (kb, r)
  else (kb, r)

/-- `KnowledgeBaseA.tell` (the `other_ghost_pos` argument is unused in the
source). -/
def tell (kb : KBA) (myPos : Coord) (pacmanPos : Option Coord)
    (percepts : Percept) (r : PyRandom) : KBA × PyRandom :=
  let kb := { kb with my_pos := myPos }
  let kb := applyPercepts kb percepts
  let kb := { kb with pacman_pos_percept := pacmanPos, see_pacman := pacmanPos.isSome }
  update_state_logic kb r

/-- One TELL input for ghost A: `(my_pos, pacman_pos, percepts)`. -/
structure Tick where
  my : Coord
  pac : Option Coord
  per : Percept
deriving Repr, DecidableEq

/-- A run of consecutive TELLs. -/
def run (s : KBA × PyRandom) (ts : List Tick) : KBA × PyRandom :=
  ts.foldl (fun s t => tell s.1 t.my t.pac t.per s.2) s

end KnowledgeBaseA

/-! ## 9. Ghost B (`KnowledgeBaseB`, optimistic analyst) -/

structure KBB where
  walls : List Coord
  safe_tiles : List Coord
  unknown_tiles : List Coord
  junctions : List Coord
  believed_pellets : List Coord
  initialized : Bool
  my_pos : Option Coord
  pacman_visible : Bool
  pacman_last_pos : Option Coord
  percepts : Percept
  clues : List (Coord × Int)
  goal : Option Coord
  current_path : List Coord
  visited_junctions : List Coord
  is_loitering : Bool
  loiter_timer : Int
  loiter_anchor : Option Coord
deriving Repr, DecidableEq

namespace KnowledgeBaseB

open KnowledgeBaseA (addC delC)

/-- `KnowledgeBaseB.__init__` (`MAX_LOITER_TIME` is the constant 4). -/
def init : KBB :=
  { walls := [], safe_tiles := [], unknown_tiles := [], junctions := [],
    believed_pellets := [], initialized := false, my_pos := none,
    pacman_visible := false, pacman_last_pos := none, percepts := [],
    clues := [], goal := none, current_path := [], visited_junctions := [],
    is_loitering := false, loiter_timer := 0, loiter_anchor := none }

/-- `_infer_junction`: count cardinal neighbours that are not known walls
(optimistic); 3 or more makes a junction. -/
def infer_junction (kb : KBB) (pos : Coord) : KBB :=
  if pos ∈ kb.walls then kb
  else if 3 ≤ ((get_neighbors pos).filter (fun n => n ∉ kb.walls)).length then
    { kb with junctions := addC kb.junctions pos }
  else kb

/-- `_mark_safe`: no-op if already safe; otherwise add to safe, discard from
walls and unknown, pre-seed fresh neighbours as unknown, and re-infer the
junction classification of the tile and of its already-safe neighbours. -/
def mark_safe (kb : KBB) (pos : Coord) : KBB :=
  if pos ∈ kb.safe_tiles then kb
  else
    let kb := { kb with safe_tiles := addC kb.safe_tiles pos,
                        walls := delC kb.walls pos,
                        unknown_tiles := delC kb.unknown_tiles pos }
    let kb := (get_neighbors pos).foldl
      (fun kb n =>
        if n ∉ kb.safe_tiles ∧ n ∉ kb.walls then
          { kb with unknown_tiles := addC kb.unknown_tiles n }
        else kb) kb
    let kb := infer_junction kb pos
    (get_neighbors pos).foldl
      (fun kb n => if n ∈ kb.safe_tiles then infer_junction kb n else kb) kb

/-- The percept loop of `tell`, also tracking `new_clue_pos`. -/
def perceptLoop (kb : KBB) (percepts : Percept) : KBB × Option Coord :=
  percepts.foldl
    (fun s pi =>
      let kb := s.1
      let nc := s.2
      if pi.2 = "WALL" then
        ({ kb with walls := addC kb.walls pi.1,
                   safe_tiles := delC kb.safe_tiles pi.1,
                   unknown_tiles := delC kb.unknown_tiles pi.1,
                   junctions := delC kb.junctions pi.1 }, nc)
      else
        let kb := mark_safe kb pi.1
        if pi.2 = "PELLET" then
          ({ kb with believed_pellets := addC kb.believed_pellets pi.1 }, nc)
        else if pi.2 = "EMPTY" then
          if pi.1 ∈ kb.believed_pellets then
            ({ kb with believed_pellets := delC kb.believed_pellets pi.1 }, some pi.1)
          else (kb, nc)
        else (kb, nc))
    (kb, none)

/-- The clue-aging and pacman-interaction tail of `tell` (steps 2 and 3),
applied to the percept loop's result. -/
def tellTail (pl : KBB × Option Coord) (pacmanPos : Option Coord) : KBB :=
  let kb := pl.1
  let newClue := pl.2
  let aliveClues := kb.clues.filterMap
    (fun c =>
      if some c.1 = kb.my_pos then none
      else if kb.pacman_visible then none
      else if c.2 < 25 then some (c.1, c.2 + 1) else none)
  let kb := { kb with clues := aliveClues }
  match pacmanPos with
  | some pp =>
    { kb with pacman_visible := true, pacman_last_pos := some pp, clues := [],
              is_loitering := false, goal := none }
  | none =>
    let kb := { kb with pacman_visible := false }
    match newClue with
    | some nc =>
      let cl := (nc, (0 : Int)) :: kb.clues
      { kb with clues := if 2 < cl.length then cl.dropLast else cl }
    | none => kb

/-- `KnowledgeBaseB.tell`. -/
def tell (kb : KBB) (myPos : Coord) (pacmanPos : Option Coord)
    (percepts : Percept) : KBB :=
  let kb := { kb with my_pos := some myPos, percepts := percepts }
  let kb :=
    if ¬ kb.initialized then
      let kb := mark_safe kb myPos
      let kb := (get_neighbors myPos).foldl
        (fun kb n =>
          if n ∉ kb.walls then { kb with unknown_tiles := addC kb.unknown_tiles n }
          else kb) kb
      { kb with initialized := true }
    else mark_safe kb myPos
  tellTail (perceptLoop kb percepts) pacmanPos

/-- The `possible` list of `_get_random_optimistic_move`: cardinal moves
whose target is not a known wall and lies in `safe ∪ unknown` (`my_pos` is
always set by `tell` before `ask` can reach this helper). -/
def possible_moves (kb : KBB) : List String :=
  (MOVES.filter
    (fun m =>
      m.1 ≠ "WAIT" ∧
      ((kb.my_pos.getD (0, 0)).1 + m.2.1,
       (kb.my_pos.getD (0, 0)).2 + m.2.2) ∉ kb.walls ∧
      (((kb.my_pos.getD (0, 0)).1 + m.2.1,
        (kb.my_pos.getD (0, 0)).2 + m.2.2) ∈ kb.safe_tiles ∨
       ((kb.my_pos.getD (0, 0)).1 + m.2.1,
        (kb.my_pos.getD (0, 0)).2 + m.2.2) ∈ kb.unknown_tiles))).map
    (fun m => m.1)

/-- `_get_random_optimistic_move`: a choice from `possible` drawn by the
module-level `random.choice` — i.e. from the process-global generator —
or `WAIT` when no such move exists. -/
def get_random_optimistic_move (kb : KBB) (r : PyRandom) : String × PyRandom :=
  if h : possible_moves kb = [] then ("WAIT", r)
  else pyChoice (possible_moves kb) h r

end KnowledgeBaseB

/-! ## 10. Ghost C (`KnowledgeBaseC`, FOL coordinator)

The fact store holds `FolPred`s; `my_pos`, `goal`, `current_path`,
`last_pacman_pos`, `last_pacman_vector` and `current_time` are the scratch
state of the class.  Timestamps and coordinates in reachable stores are
always `Int` constants; query helpers that read a binding as a Python `int`
pattern-match on that shape. -/

structure KBC where
  facts : Facts
  my_pos : Coord
  goal : Option Coord
  current_path : List Coord
  last_pacman_pos : Option Coord
  last_pacman_vector : Int × Int
  current_time : Int
deriving Repr, DecidableEq

namespace KnowledgeBaseC

open KnowledgeBaseA (addC delC)

/-- `KnowledgeBaseC.__init__`. -/
def init : KBC :=
  { facts := [], my_pos := (24, 8), goal := none, current_path := [],
    last_pacman_pos := none, last_pacman_vector := (0, 0), current_time := 0 }

/-- `_assert_fact`: insert only if ground, else silently do nothing. -/
def assert_fact (fs : Facts) (f : FolPred) : Facts :=
  if f.is_ground then insertFact fs f else fs

/-- The removal condition of `_retract_old_history`: a `VisitedAtTime` fact
whose (integer) timestamp is older than `keepN`. -/
def histOld (now keepN : Int) (f : FolPred) : Bool :=
  match f with
  | ⟨.VisitedAtTime, [.t (.const _), .t (.const _), .t (.const (.i t))]⟩ =>
    decide (keepN < now - t)
  | _ => false

/-- The removal condition of `_retract_old_unreachable_goals`. -/
def unreachOld (now keepN : Int) (f : FolPred) : Bool :=
  match f with
  | ⟨.UnreachableGoal, [.t (.const _), .t (.const _), .t (.const (.i t))]⟩ =>
    decide (keepN < now - t)
  | _ => false

/-- `_learn_map_topology`: current position safe; each WALL percept asserts
a wall (retracting the safe fact only when the wall is newly learned); any
other percept asserts a safe fact (never retracting a wall fact). -/
def learn_map_topology (fs : Facts) (myPos : Coord) (percepts : Percept) : Facts :=
  let fs :=
    if queryExists fs (locPred .LearnedSafe myPos) then fs
    else assert_fact fs (locPred .LearnedSafe myPos)
  percepts.foldl
    (fun fs pi =>
      if pi.2 = "WALL" then
        if queryExists fs (locPred .LearnedWall pi.1) then fs
        else retractMatching (assert_fact fs (locPred .LearnedWall pi.1))
          (locPred .LearnedSafe pi.1)
      else
        if queryExists fs (locPred .LearnedSafe pi.1) then fs
        else assert_fact fs (locPred .LearnedSafe pi.1))
    fs

/-- `_retract_dynamic_beliefs`. -/
def retract_dynamic_beliefs (fs : Facts) : Facts :=
  let fs := retractMatching fs ⟨.GhostPos, [varA "ID", varA "X", varA "Y"]⟩
  let fs := retractMatching fs ⟨.PacmanPos, [varA "X", varA "Y"]⟩
  retractMatching fs ⟨.PacmanVector, [varA "DX", varA "DY"]⟩

/-- `KnowledgeBaseC.tell`. -/
def tell (kb : KBC) (myPos : Coord) (pacmanPos : Option Coord)
    (others : List (String × Coord)) (percepts : Percept) : KBC :=
  let now := kb.current_time + 1
  let fs := kb.facts
  let fs := fs.filter (fun f => ¬ histOld now 10 f)
  let fs := assert_fact fs (visitedP myPos now)
  let fs := fs.filter (fun f => ¬ unreachOld now 7 f)
  let fs := retractMatching fs (lastPosP (.const (.s "C")) (.var "X") (.var "Y"))
  let fs := assert_fact fs
    (lastPosP (.const (.s "C")) (.const (.i myPos.1)) (.const (.i myPos.2)))
  let fs := learn_map_topology fs myPos percepts
  let fs := retract_dynamic_beliefs fs
  let fs := assert_fact fs (ghostPosP (.s "C") myPos)
  let fs := others.foldl (fun fs g => assert_fact fs (ghostPosP (.s g.1) g.2)) fs
  match pacmanPos with
  | none => { kb with facts := fs, my_pos := myPos, current_time := now }
  | some pp =>
    let fs := assert_fact fs (locPred .PacmanPos pp)
    let newVec :=
      match kb.last_pacman_pos with
      | some lp =>
        if pp.1 - lp.1 ≠ 0 ∨ pp.2 - lp.2 ≠ 0 then (pp.1 - lp.1, pp.2 - lp.2)
        else kb.last_pacman_vector
      | none => kb.last_pacman_vector
    let fs := assert_fact fs (pacmanVectorP newVec)
    { kb with facts := fs, my_pos := myPos, current_time := now,
              last_pacman_pos := some pp, last_pacman_vector := newVec }

/-! ### ASK helpers -/

/-- Manhattan distance (`abs(dx) + abs(dy)` on Python ints). -/
def manh (a b : Coord) : Int := |a.1 - b.1| + |a.2 - b.2|

/-- `_query_all_safe_coords`: the coordinates of all `LearnedSafe` facts. -/
def query_all_safe_coords (fs : Facts) : List Coord :=
  fs.filterMap (fun f =>
    match f with
    | ⟨.LearnedSafe, [.t (.const (.i x)), .t (.const (.i y))]⟩ => some (x, y)
    | _ => none)

/-- `_is_position_safe`. -/
def is_position_safe (fs : Facts) (pos : Coord) : Bool :=
  queryExists fs (locPred .LearnedSafe pos)

/-- `_is_unreachable_goal`. -/
def is_unreachable_goal (fs : Facts) (g : Coord) : Bool :=
  queryExists fs ⟨.UnreachableGoal, [constI g.1, constI g.2, varA "T"]⟩

/-- `_infer_oscillation`: this exact tile was visited 2 and 4 ticks ago. -/
def infer_oscillation (fs : Facts) (myPos : Coord) (t : Int) : Bool :=
  queryExists fs (visitedP myPos (t - 2)) && queryExists fs (visitedP myPos (t - 4))

/-- `_find_farthest_safe_tile`: the first safe tile (in iteration order)
realising the maximum Manhattan distance from `myPos`. -/
def find_farthest_safe_tile (fs : Facts) (myPos : Coord) : Option Coord :=
  let safe := query_all_safe_coords fs
  if safe = [] then none
  else
    (safe.foldl
      (fun b t => if manh myPos t > b.2 then (some t, manh myPos t) else b)
      ((none : Option Coord), (-1 : Int))).1

/-- `_query_nearby_ghosts`: positions of other-ghost beliefs within the
repulsion distance. -/
def query_nearby_ghosts (fs : Facts) (myPos : Coord) (rd : Int) : List Coord :=
  fs.filterMap (fun f =>
    match f with
    | ⟨.GhostPos, [.t (.const gid), .t (.const (.i gx)), .t (.const (.i gy))]⟩ =>
      if gid ≠ .s "C" ∧ manh myPos (gx, gy) < rd then some (gx, gy) else none
    | _ => none)

/-- The template `EscapeState(X, Y, T)`. -/
def escTmpl : FolPred := ⟨.EscapeState, [varA "X", varA "Y", varA "T"]⟩

/-- `_query_active_escape`: the first `EscapeState` fact; expired facts are
retracted and yield `None`.  (Python floats do not enter here; all
timestamps are ints.) -/
def query_active_escape (kb : KBC) (duration : Int) : Option Coord × Facts :=
  match kb.facts.find?
      (fun f => decide (f.name = .EscapeState) && (unify escTmpl f).isSome) with
  | some ⟨_, [.t (.const (.i gx)), .t (.const (.i gy)), .t (.const (.i st))]⟩ =>
    if kb.current_time - st > duration then (none, retractMatching kb.facts escTmpl)
    else (some (gx, gy), kb.facts)
  | _ => (none, kb.facts)

/-- `_retract_escape_state`. -/
def retract_escape_state (fs : Facts) : Facts := retractMatching fs escTmpl

/-- The first binding of a two-argument predicate query (`results[0]` of
`get_unifications(P(X, Y))`). -/
def firstBinding2 (fs : Facts) (n : PredName) : Option (Int × Int) :=
  fs.findSome? (fun f =>
    match f with
    | ⟨m, [.t (.const (.i x)), .t (.const (.i y))]⟩ =>
      if m = n then some (x, y) else none
    | _ => none)

/-- `_query_pacman_state`: `(px, py, vx, vy)`, the vector defaulting to
`(0, 0)` when no `PacmanVector` fact exists. -/
def query_pacman_state (fs : Facts) : Option (Int × Int × Int × Int) :=
  match firstBinding2 fs .PacmanPos with
  | none => none
  | some (px, py) =>
    match firstBinding2 fs .PacmanVector with
    | some (vx, vy) => some (px, py, vx, vy)
    | none => some (px, py, 0, 0)

/-- `_query_vector`. -/
def query_vector (fs : Facts) : Option (Int × Int) := firstBinding2 fs .PacmanVector

/-- `_is_path_obstructed`. -/
def is_path_obstructed (kb : KBC) : Bool :=
  if kb.current_path = [] then true
  else if kb.current_path.length = 1 then
    decide (¬ kb.current_path = [kb.my_pos])
  else kb.current_path.any (fun t => ¬ is_position_safe kb.facts t)

/-- `_infer_repulsion_goal`.  The float arithmetic of the source (centroid,
normalised escape vector, score) is modelled over `ℚ`; at every input where
this development evaluates it, the Python float computations are exact, so
the rational model agrees. -/
def infer_repulsion_goal (fs : Facts) (myPos : Coord) (threats : List Coord) :
    Option Coord :=
  match threats with
  | [] => none
  | th0 :: rest =>
    let safe := query_all_safe_coords fs
    let n : ℚ := (threats.length : ℚ)
    let ax : ℚ := ((threats.map (fun g => (g.1 : ℚ))).sum) / n
    let ay : ℚ := ((threats.map (fun g => (g.2 : ℚ))).sum) / n
    let edx0 : ℚ := (myPos.1 : ℚ) - ax
    let edy0 : ℚ := (myPos.2 : ℚ) - ay
    let mag : ℚ := max (max |edx0| |edy0|) 1
    let edx := edx0 / mag
    let edy := edy0 / mag
    let r := safe.foldl
      (fun best t =>
        let dfm := manh myPos t
        if dfm > 6 ∨ dfm = 0 then best
        else
          let dx : ℚ := ((t.1 - myPos.1 : Int) : ℚ)
          let dy : ℚ := ((t.2 - myPos.2 : Int) : ℚ)
          let alignment := dx * edx + dy * edy
          let mtd : Int := (rest.map (fun g => manh t g)).foldl min (manh t th0)
          let score := alignment * 3 + (mtd : ℚ)
          match best with
          | none => some (t, score)
          | some b => if score > b.2 then some (t, score) else some b)
      (none : Option (Coord × ℚ))
    match r with
    | some b => some b.1
    | none => some myPos

/-- `_compute_frontier`: unknown (neither safe nor wall) neighbours of safe
tiles. -/
def compute_frontier (fs : Facts) : List Coord :=
  (query_all_safe_coords fs).foldl
    (fun fr s =>
      (get_neighbors s).foldl
        (fun fr n =>
          if ¬ queryExists fs (locPred .LearnedSafe n) ∧
             ¬ queryExists fs (locPred .LearnedWall n) then addC fr n
          else fr)
        fr)
    []

/-- `_find_nearest_frontier_goal`. -/
def find_nearest_frontier_goal (fs : Facts) (myPos : Coord) : Option Coord :=
  let frontier := (compute_frontier fs).filter (fun f => ¬ is_unreachable_goal fs f)
  if frontier = [] then none
  else
    let safe := query_all_safe_coords fs
    match find_nearest_coord myPos frontier safe with
    | none => none
    | some nf =>
      if manh myPos nf = 1 then some nf
      else
        match (get_neighbors nf).find? (fun n => decide (n ∈ safe)) with
        | some nb => some nb
        | none => none

/-- `_find_vector_aligned_frontier`.  In the source the best-so-far check
and all returns sit *inside* the `for` loop, so every iteration returns:
the function is determined by the first frontier element alone. -/
def find_vector_aligned_frontier (fs : Facts) (myPos : Coord) (v : Int × Int) :
    Option Coord :=
  match compute_frontier fs with
  | [] => none
  | f0 :: _ =>
    if (f0.1 - myPos.1) * v.1 + (f0.2 - myPos.2) * v.2 > 0 then
      if manh myPos f0 = 1 then some f0
      else
        let safe := query_all_safe_coords fs
        match (get_neighbors f0).find? (fun n => decide (n ∈ safe)) with
        | some nb => some nb
        | none => none
    else none

/-- `_find_spread_goal`: the first safe tile farther than 10 away. -/
def find_spread_goal (fs : Facts) (myPos : Coord) : Option Coord :=
  (query_all_safe_coords fs).find? (fun t => decide (manh myPos t > 10))

/-- `_find_nearest_safe_to_target`. -/
def find_nearest_safe_to_target (fs : Facts) (target : Coord) : Option Coord :=
  let safe := query_all_safe_coords fs
  if safe = [] then none
  else find_nearest_coord target safe safe

/-- `_get_safe_fallback_move`: module-level `random.choice` over the
cardinal moves into `LearnedSafe` tiles. -/
def get_safe_fallback_move (fs : Facts) (myPos : Coord) (r : PyRandom) :
    String × PyRandom :=
  let safe_moves := (MOVES.filter
    (fun m => m.1 ≠ "WAIT" ∧
      is_position_safe fs (myPos.1 + m.2.1, myPos.2 + m.2.2))).map (fun m => m.1)
  if h : safe_moves = [] then ("WAIT", r)
  else pyChoice safe_moves h r

/-! ### ASK: goal cascade and execution -/

/-- Priorities 1–6 of `ask`.  Priority 1 (repulsion) overwrites `new_goal`
unconditionally when another ghost is within the repulsion distance; every
later priority is gated on `new_goal is None`. -/
def askGoalTail (kb : KBC) (g0 : Option Coord) (fs : Facts) :
    Option Coord × Facts × Bool :=
  let nearby := query_nearby_ghosts fs kb.my_pos 5
  let g := if nearby = [] then g0 else infer_repulsion_goal fs kb.my_pos nearby
  let g :=
    if g = none then
      match query_pacman_state fs with
      | some (px, py, _, _) =>
        let d := manh kb.my_pos (px, py)
        if d ≤ 4 ∧ d ≤ 2 ∧ ¬ is_unreachable_goal fs (px, py) then some (px, py)
        else none
      | none => none
    else g
  let g :=
    if g = none then
      match query_pacman_state fs with
      | some (px, py, vx, vy) =>
        let d := manh kb.my_pos (px, py)
        if 3 ≤ d ∧ d ≤ 4 then
          match find_nearest_safe_to_target fs (px + vx * 2, py + vy * 2) with
          | some ig => if ¬ is_unreachable_goal fs ig then some ig else none
          | none => none
        else none
      | none => none
    else g
  let g :=
    if g = none then
      match query_vector fs with
      | some v =>
        if v ≠ (0, 0) then
          match find_vector_aligned_frontier fs kb.my_pos v with
          | some ag => if ¬ is_unreachable_goal fs ag then some ag else none
          | none => none
        else none
      | none => none
    else g
  let g :=
    if g = none then
      match find_nearest_frontier_goal fs kb.my_pos with
      | some fg => if ¬ is_unreachable_goal fs fg then some fg else none
      | none => none
    else g
  let g :=
    if g = none then
      match find_spread_goal fs kb.my_pos with
      | some sg => if ¬ is_unreachable_goal fs sg then some sg else none
      | none => none
    else g
  (g, fs, false)

/-- The goal-selection cascade of `ask` (priorities 0–6): the chosen
`new_goal`, the fact store after the cascade's assertions/retractions, and
whether the cascade exited `ask` early (priority 0.5 with no known safe
tile returns `_get_safe_fallback_move()` directly). -/
def askGoalCascade (kb : KBC) : Option Coord × Facts × Bool :=
  let p0 := query_active_escape kb 20
  let fs0 := p0.2
  let g0 : Option Coord :=
    match p0.1 with
    | some t => if t = kb.my_pos then none else some t
    | none => none
  let fs0 :=
    match p0.1 with
    | some t => if t = kb.my_pos then retract_escape_state fs0 else fs0
    | none => fs0
  if g0 = none ∧ infer_oscillation fs0 kb.my_pos kb.current_time then
    match find_farthest_safe_tile fs0 kb.my_pos with
    | some far =>
      askGoalTail kb (some far) (assert_fact fs0 (escapeP far kb.current_time))
    | none => (none, fs0, true)
  else askGoalTail kb g0 fs0

/-- The pathfinding-and-execution tail of `ask` (lines 286–326). -/
def askExec (kb : KBC) (r : PyRandom) : String × KBC × PyRandom :=
  if kb.current_path ≠ [] then
    if kb.my_pos ∉ kb.current_path then
      let kb := { kb with current_path := [], goal := none }
      let f := get_safe_fallback_move kb.facts kb.my_pos r
      (f.1, kb, f.2)
    else
      let idx := kb.current_path.indexOf kb.my_pos
      if idx + 1 < kb.current_path.length then
        let next := kb.current_path.getD (idx + 1) (0, 0)
        if is_position_safe kb.facts next ∨ some next = kb.goal then
          if manh kb.my_pos next = 1 then
            (get_move_from_path kb.my_pos [kb.my_pos, next], kb, r)
          else
            let kb := { kb with current_path := [], goal := none }
            let f := get_safe_fallback_move kb.facts kb.my_pos r
            (f.1, kb, f.2)
        else
          let kb := { kb with current_path := [], goal := none }
          let f := get_safe_fallback_move kb.facts kb.my_pos r
          (f.1, kb, f.2)
      else
        let kb := { kb with current_path := [], goal := none }
        let f := get_safe_fallback_move kb.facts kb.my_pos r
        (f.1, kb, f.2)
  else
    let f := get_safe_fallback_move kb.facts kb.my_pos r
    (f.1, kb, f.2)

/-- `KnowledgeBaseC.ask`: cascade, pathfinding, execution. -/
def ask (kb : KBC) (r : PyRandom) : String × KBC × PyRandom :=
  match askGoalCascade kb with
  | (_, fs, true) =>
    let kb := { kb with facts := fs }
    let f := get_safe_fallback_move kb.facts kb.my_pos r
    (f.1, kb, f.2)
  | (newGoal, fs, false) =>
    let kb := { kb with facts := fs }
    let kb :=
      match newGoal with
      | none => kb
      | some ng =>
        if some ng ≠ kb.goal ∨ is_path_obstructed kb then
          let kb := { kb with goal := some ng }
          let safeCoords := addC (query_all_safe_coords kb.facts) ng
          match bfs_pathfinder kb.my_pos ng safeCoords with
          | none =>
            let kb := { kb with facts := insertFact kb.facts (unreachP ng kb.current_time) }
            let fb := (find_nearest_frontier_goal kb.facts kb.my_pos).orElse
              (fun _ => find_spread_goal kb.facts kb.my_pos)
            match fb with
            | some fbg =>
              let kb := { kb with goal := some fbg }
              { kb with current_path := (bfs_pathfinder kb.my_pos fbg safeCoords).getD [] }
            | none => { kb with current_path := [] }
          | some newPath =>
            let kb :=
              match newPath with
              | [c] =>
                if c ≠ kb.my_pos then
                  { kb with facts := insertFact kb.facts (unreachP ng kb.current_time) }
                else kb
              | _ => kb
            { kb with current_path := newPath }
        else kb
    askExec kb r

/-- One interaction with the KB: a TELL with its percept inputs, or an ASK. -/
inductive OpC where
  | tellOp (my : Coord) (pac : Option Coord) (others : List (String × Coord))
      (per : Percept)
  | askOp

/-- A TELL/ASK interaction sequence against ghost C's KB. -/
def runC (s : KBC × PyRandom) : List OpC → KBC × PyRandom
  | [] => s
  | .tellOp my pac others per :: ops => runC (tell s.1 my pac others per, s.2) ops
  | .askOp :: ops =>
    let a := ask s.1 s.2
    runC (a.2.1, a.2.2) ops

end KnowledgeBaseC

/-- No fact named `LastPos` is in the store. -/
def NoLP (fs : Facts) : Prop := ∀ f ∈ fs, f.name ≠ .LastPos

/-- The `PacmanPos(X, Y)` query template. -/
def pacmanPosTmpl : FolPred := ⟨.PacmanPos, [varA "X", varA "Y"]⟩

/-- How one query argument may be built from the corresponding fact
argument: keep the fact's `Constant`, or replace it by a `Variable`. -/
inductive QArg : Arg → Arg → Prop where
  | keep (v : Val) : QArg (.t (.const v)) (.t (.const v))
  | fresh (x : String) (v : Val) : QArg (.t (.var x)) (.t (.const v))

/-- The variable names occurring in a query argument list, in order. -/
def varNames : List Arg → List String
  | [] => []
  | .t (.var x) :: rest => x :: varNames rest
  | _ :: rest => varNames rest

/-- Wall/safe disjointness for ghost B's model. -/
def DisjWS (kb : KBB) : Prop := ∀ x ∈ kb.walls, x ∉ kb.safe_tiles

/-- The state after ghost A perceives `(2,2)` as WALL and then, one tick
later, perceives `(2,2)` as non-wall. -/
def kbA_two_ticks : KBA × PyRandom :=
  KnowledgeBaseA.tell
    (KnowledgeBaseA.tell KnowledgeBaseA.init (0, 0) none [((2, 2), "WALL")]
      ⟨fun _ => 0, 0⟩).1
    (0, 0) none [((2, 2), "EMPTY")]
    (KnowledgeBaseA.tell KnowledgeBaseA.init (0, 0) none [((2, 2), "WALL")]
      ⟨fun _ => 0, 0⟩).2

/-- The `PacmanVector(DX, DY)` query template. -/
def vecTmpl : FolPred := ⟨.PacmanVector, [varA "DX", varA "DY"]⟩

/-- The states after ghost C sees pacman at `(3,0)`, then at `(4,0)`, then
loses sight of it. -/
def kbC_seen : KBC :=
  KnowledgeBaseC.tell
    (KnowledgeBaseC.tell KnowledgeBaseC.init (0, 0) (some (3, 0)) [] [])
    (0, 0) (some (4, 0)) [] []

def kbC_hidden : KBC := KnowledgeBaseC.tell kbC_seen (0, 0) none [] []

/-- The concrete C7 scenario: visible at `(5,5)` for two ticks, hidden for
two ticks, then arrival at `(5,5)`. -/
def c7s0 : KBA × PyRandom := (KnowledgeBaseA.init, ⟨fun n => n, 0⟩)

def c7t1 : KnowledgeBaseA.Tick := ⟨(0, 0), some (5, 5), []⟩

def c7t2 : KnowledgeBaseA.Tick := ⟨(1, 0), some (5, 5), []⟩

def c7mid : List KnowledgeBaseA.Tick := [⟨(2, 0), none, []⟩, ⟨(3, 0), none, []⟩]

def c7tk : KnowledgeBaseA.Tick := ⟨(5, 5), none, []⟩

/-- Ghost B's KB after its first TELL from a fresh state at `(0,0)` with no
percepts: the four neighbours are pre-seeded unknown, so all four moves are
possible. -/
def kbB_fresh : KBB := KnowledgeBaseB.tell KnowledgeBaseB.init (0, 0) none []

/-- A coordinator KB oscillating on (0,0) at tick 4 with safe tiles (0,0)
and (10,0) and another ghost adjacent at (1,0). -/
def kbOsc : KBC :=
  { facts := [visitedP (0, 0) 0, visitedP (0, 0) 2,
      locPred .LearnedSafe (0, 0), locPred .LearnedSafe (10, 0),
      ghostPosP (.s "A") (1, 0)],
    my_pos := (0, 0), goal := none, current_path := [],
    last_pacman_pos := none, last_pacman_vector := (0, 0), current_time := 4 }

/-- The same KB without the nearby ghost. -/
def kbOscNG : KBC :=
  { facts := [visitedP (0, 0) 0, visitedP (0, 0) 2,
      locPred .LearnedSafe (0, 0), locPred .LearnedSafe (10, 0)],
    my_pos := (0, 0), goal := none, current_path := [],
    last_pacman_pos := none, last_pacman_vector := (0, 0), current_time := 4 }

/-! ## 11. Shared lemmas about the fact store -/

theorem mem_insertFact {fs : Facts} {p f : FolPred} :
    f ∈ insertFact fs p ↔ f ∈ fs ∨ f = p := by
  unfold insertFact
  split
  · next h =>
    constructor
    · exact fun hf => Or.inl hf
    · rintro (hf | rfl)
      · exact hf
      · exact h
  · simp [List.mem_append]

/-- Facts are only ever removed by `List.filter`-shaped operations; any
name-based invariant survives them. -/
theorem mem_of_mem_filter' {fs : Facts} {q : FolPred → Bool} {f : FolPred}
    (h : f ∈ fs.filter q) : f ∈ fs :=
  (List.mem_filter.mp h).1

/-! ## 12. Claim C1: non-ground assertion behaviour -/

/-- C1 counterexample: the vacuum KB's `tell` *raises* `ValueError` on a
non-ground predicate (here `Position(Variable X, Constant 0)`), refuting
"for every knowledge base in the system, asserting a non-ground fact is a
silent no-op … no exception is raised". -/
theorem C1_vacuum_tell_nonground_raises :
    KnowledgeBaseWithFOL.tell [] ⟨.Position, [varA "X", constI 0]⟩ =
      .error "Can only tell ground predicates (no variables)" := rfl

/-- C1 (amended): in the ghost coordinator KB, `_assert_fact` on a
non-ground fact is a silent no-op leaving the store unchanged; the vacuum
KB's `tell`, by contrast, raises `ValueError` on every non-ground
predicate. -/
theorem C1_nonground_assert_behaviour :
    (∀ (fs : Facts) (p : FolPred), p.is_ground = false →
      KnowledgeBaseC.assert_fact fs p = fs) ∧
    (∀ (fs : Facts) (p : FolPred), p.is_ground = false →
      KnowledgeBaseWithFOL.tell fs p =
        .error "Can only tell ground predicates (no variables)") := by
  constructor
  · intro fs p h
    simp [KnowledgeBaseC.assert_fact, h]
  · intro fs p h
    simp [KnowledgeBaseWithFOL.tell, h]

/-- C1 witness: the no-op branch evaluated at a concrete non-ground fact and
a concrete store. -/
theorem C1_nonground_assert_behaviour_witness :
    (⟨.Position, [varA "X", constI 0]⟩ : FolPred).is_ground = false ∧
    KnowledgeBaseC.assert_fact [locPred .LearnedSafe (1, 2)]
      ⟨.Position, [varA "X", constI 0]⟩ = [locPred .LearnedSafe (1, 2)] :=
  ⟨by decide, C1_nonground_assert_behaviour.1 _ _ (by decide)⟩

/-! ## 13. Claim C10: `LastPos` is never ground and never stored -/

theorem noLP_filter {fs : Facts} {q : FolPred → Bool} (h : NoLP fs) :
    NoLP (fs.filter q) := fun f hf => h f (mem_of_mem_filter' hf)

theorem noLP_retract {fs : Facts} {t : FolPred} (h : NoLP fs) :
    NoLP (retractMatching fs t) := noLP_filter h

theorem noLP_insert {fs : Facts} {p : FolPred} (h : NoLP fs)
    (hp : p.name ≠ .LastPos) : NoLP (insertFact fs p) := by
  intro f hf
  rcases mem_insertFact.mp hf with hf | rfl
  · exact h f hf
  · exact hp

theorem noLP_assert {fs : Facts} {p : FolPred} (h : NoLP fs)
    (hp : p.name ≠ .LastPos) : NoLP (KnowledgeBaseC.assert_fact fs p) := by
  unfold KnowledgeBaseC.assert_fact
  split
  · exact noLP_insert h hp
  · exact h

/-- `LastPos(...)` carries the raw string `"LastPos"` as an argument, so it
is never ground, whatever terms fill the declared slots. -/
theorem lastPos_not_ground (g x y : Term) :
    (lastPosP g x y).is_ground = false := rfl

/-- Asserting a `LastPos` fact therefore never changes the store. -/
theorem assert_lastPos_noop (fs : Facts) (g x y : Term) :
    KnowledgeBaseC.assert_fact fs (lastPosP g x y) = fs := by
  unfold KnowledgeBaseC.assert_fact
  rw [lastPos_not_ground]
  rfl

theorem noLP_learn {percepts : Percept} {fs : Facts} {myPos : Coord}
    (h : NoLP fs) : NoLP (KnowledgeBaseC.learn_map_topology fs myPos percepts) := by
  unfold KnowledgeBaseC.learn_map_topology
  have step : ∀ (ps : Percept) (fs : Facts), NoLP fs →
      NoLP (ps.foldl (fun fs pi =>
        if pi.2 = "WALL" then
          if queryExists fs (locPred .LearnedWall pi.1) then fs
          else retractMatching (KnowledgeBaseC.assert_fact fs (locPred .LearnedWall pi.1))
            (locPred .LearnedSafe pi.1)
        else
          if queryExists fs (locPred .LearnedSafe pi.1) then fs
          else KnowledgeBaseC.assert_fact fs (locPred .LearnedSafe pi.1)) fs) := by
    intro ps
    induction ps with
    | nil => intro fs h; exact h
    | cons p ps ih =>
      intro fs h
      refine ih _ ?_
      dsimp only
      split
      · split
        · exact h
        · exact noLP_retract (noLP_assert h (by intro hc; cases hc))
      · split
        · exact h
        · exact noLP_assert h (by intro hc; cases hc)
  refine step _ _ ?_
  split
  · exact h
  · exact noLP_assert h (by intro hc; cases hc)

theorem noLP_dynamic {fs : Facts} (h : NoLP fs) :
    NoLP (KnowledgeBaseC.retract_dynamic_beliefs fs) :=
  noLP_retract (noLP_retract (noLP_retract h))

theorem noLP_ghosts_fold {others : List (String × Coord)} {fs : Facts}
    (h : NoLP fs) :
    NoLP (others.foldl
      (fun fs g => KnowledgeBaseC.assert_fact fs (ghostPosP (.s g.1) g.2)) fs) := by
  induction others generalizing fs with
  | nil => exact h
  | cons o os ih => exact ih (noLP_assert h (by intro hc; cases hc))

theorem noLP_tell {kb : KBC} {myPos : Coord} {pac : Option Coord}
    {others : List (String × Coord)} {per : Percept} (h : NoLP kb.facts) :
    NoLP (KnowledgeBaseC.tell kb myPos pac others per).facts := by
  unfold KnowledgeBaseC.tell
  dsimp only
  have h1 : NoLP (kb.facts.filter
      (fun f => ¬ KnowledgeBaseC.histOld (kb.current_time + 1) 10 f)) := noLP_filter h
  have h2 := @noLP_assert _ (visitedP myPos (kb.current_time + 1)) h1 (by intro hc; cases hc)
  have h3 := @noLP_filter _ (fun f => ¬ KnowledgeBaseC.unreachOld (kb.current_time + 1) 7 f) h2
  have h4 := @noLP_retract _ (lastPosP (.const (.s "C")) (.var "X") (.var "Y")) h3
  rw [assert_lastPos_noop]
  have h5 := @noLP_learn per _ myPos h4
  have h6 := noLP_dynamic h5
  have h7 := @noLP_assert _ (ghostPosP (.s "C") myPos) h6 (by intro hc; cases hc)
  have h8 := @noLP_ghosts_fold others _ h7
  match pac with
  | none => exact h8
  | some pp =>
    dsimp only
    exact noLP_assert (noLP_assert h8 (by intro hc; cases hc)) (by intro hc; cases hc)

theorem noLP_escape {kb : KBC} (h : NoLP kb.facts) (d : Int) :
    NoLP (KnowledgeBaseC.query_active_escape kb d).2 := by
  unfold KnowledgeBaseC.query_active_escape
  split
  · split
    · exact noLP_retract h
    · exact h
  · exact h

theorem askGoalTail_facts (kb : KBC) (g : Option Coord) (fs : Facts) :
    (KnowledgeBaseC.askGoalTail kb g fs).2.1 = fs := rfl

theorem noLP_cascade {kb : KBC} (h : NoLP kb.facts) :
    NoLP (KnowledgeBaseC.askGoalCascade kb).2.1 := by
  have hfs := noLP_escape h 20
  unfold KnowledgeBaseC.askGoalCascade
  dsimp only
  have hfs0 : ∀ fs0 : Facts, NoLP fs0 →
      NoLP (KnowledgeBaseC.retract_escape_state fs0) := fun _ hh => noLP_retract hh
  split
  · split
    · rw [askGoalTail_facts]
      refine noLP_assert ?_ (by intro hc; cases hc)
      split
      · split
        · exact hfs0 _ hfs
        · exact hfs
      · exact hfs
    · split
      · split
        · exact hfs0 _ hfs
        · exact hfs
      · exact hfs
  · rw [askGoalTail_facts]
    split
    · split
      · exact hfs0 _ hfs
      · exact hfs
    · exact hfs

theorem askExec_facts (kb : KBC) (r : PyRandom) :
    (KnowledgeBaseC.askExec kb r).2.1.facts = kb.facts := by
  unfold KnowledgeBaseC.askExec
  dsimp only
  repeat' split
  all_goals rfl

theorem noLP_ask {kb : KBC} {r : PyRandom} (h : NoLP kb.facts) :
    NoLP (KnowledgeBaseC.ask kb r).2.1.facts := by
  have hc := noLP_cascade h
  unfold KnowledgeBaseC.ask
  split
  · next g fs heq =>
    rw [heq] at hc
    exact hc
  · next g fs heq =>
    rw [heq] at hc
    rw [askExec_facts]
    dsimp only at hc ⊢
    split
    · exact hc
    · split
      · split
        · split
          · dsimp only
            refine noLP_insert ?_ (by intro hcc; cases hcc)
            exact hc
          · dsimp only
            refine noLP_insert ?_ (by intro hcc; cases hcc)
            exact hc
        · split
          · split
            · refine noLP_insert hc (by intro hcc; cases hcc)
            · exact hc
          · exact hc
      · exact hc

theorem noLP_runC {s : KBC × PyRandom} (h : NoLP s.1.facts)
    (ops : List KnowledgeBaseC.OpC) :
    NoLP (KnowledgeBaseC.runC s ops).1.facts := by
  induction ops generalizing s with
  | nil => exact h
  | cons op ops ih =>
    match op with
    | .tellOp my pac others per =>
      exact @ih (KnowledgeBaseC.tell s.1 my pac others per, s.2) (noLP_tell h)
    | .askOp =>
      exact @ih ((KnowledgeBaseC.ask s.1 s.2).2.1, (KnowledgeBaseC.ask s.1 s.2).2.2)
        (noLP_ask h)

/-- C10: `LastPos(id, x, y)` is never ground — its constructor inserts the
raw string `"LastPos"` as an extra argument — so the coordinator's
`_assert_fact` of a `LastPos` fact is always a no-op, and no state reachable
from a fresh `KnowledgeBaseC` by any TELL/ASK sequence holds a `LastPos`
fact. -/
theorem C10_lastpos_never_stored :
    (∀ gid x y : Val,
      (lastPosP (.const gid) (.const x) (.const y)).is_ground = false) ∧
    (∀ (fs : Facts) (g x y : Term),
      KnowledgeBaseC.assert_fact fs (lastPosP g x y) = fs) ∧
    (∀ (r : PyRandom) (ops : List KnowledgeBaseC.OpC),
      ∀ f ∈ (KnowledgeBaseC.runC (KnowledgeBaseC.init, r) ops).1.facts,
        f.name ≠ .LastPos) := by
  refine ⟨fun gid x y => lastPos_not_ground _ _ _,
          fun fs g x y => assert_lastPos_noop fs g x y, ?_⟩
  intro r ops
  exact @noLP_runC (KnowledgeBaseC.init, r) (by intro f hf; cases hf) ops

/-- C10 witness: after one concrete TELL, the visit-history fact is in the
store and the invariant applies to it. -/
theorem C10_lastpos_never_stored_witness :
    visitedP (0, 0) 1 ∈
      (KnowledgeBaseC.runC (KnowledgeBaseC.init, ⟨fun _ => 0, 0⟩)
        [.tellOp (0, 0) none [] []]).1.facts ∧
    (visitedP (0, 0) 1).name ≠ .LastPos :=
  ⟨by decide, C10_lastpos_never_stored.2.2 ⟨fun _ => 0, 0⟩
    [.tellOp (0, 0) none [] []] _ (by decide)⟩

/-! ## 14. Claim C4: functional position predicates -/

theorem gu_filter_nil {fs : Facts} {q : FolPred} {h : FolPred → Bool}
    (hq : get_unifications fs q = []) :
    get_unifications (fs.filter h) q = [] := by
  unfold get_unifications at hq ⊢
  rw [List.filterMap_eq_nil_iff] at hq ⊢
  exact fun f hf => hq f (mem_of_mem_filter' hf)

theorem gu_retract_self (fs : Facts) (q : FolPred) :
    get_unifications (retractMatching fs q) q = [] := by
  unfold get_unifications
  rw [List.filterMap_eq_nil_iff]
  intro f hf
  have := (List.mem_filter.mp hf).2
  simp only [Option.isNone_iff_eq_none] at this
  simp [this]

theorem gu_insertFact (fs : Facts) (p q : FolPred) :
    get_unifications (insertFact fs p) q =
      get_unifications fs q ++
        (if p.name = q.name then (unify q p).toList else []) ∨
    get_unifications (insertFact fs p) q = get_unifications fs q := by
  unfold insertFact
  split
  · exact Or.inr rfl
  · left
    unfold get_unifications
    rw [List.filterMap_append]
    congr 1
    by_cases hpq : p.name = q.name
    · rw [if_pos hpq]
      simp only [List.filterMap_cons, List.filterMap_nil, if_pos hpq]
      cases unify q p <;> rfl
    · rw [if_neg hpq]
      simp only [List.filterMap_cons, List.filterMap_nil, if_neg hpq]

theorem gu_insert_other {fs : Facts} {p q : FolPred}
    (hn : p.name ≠ q.name) :
    get_unifications (insertFact fs p) q = get_unifications fs q := by
  rcases gu_insertFact fs p q with h | h
  · rw [h, if_neg hn, List.append_nil]
  · exact h

theorem gu_insert_len {fs : Facts} (p q : FolPred) :
    (get_unifications (insertFact fs p) q).length ≤
      (get_unifications fs q).length + 1 := by
  rcases gu_insertFact fs p q with h | h
  · rw [h, List.length_append]
    have : (if p.name = q.name then (unify q p).toList else []).length ≤ 1 := by
      split
      · cases unify q p <;> simp [Option.toList]
      · simp
    omega
  · rw [h]
    omega

theorem gu_assert_other {fs : Facts} {p q : FolPred} (hn : p.name ≠ q.name) :
    get_unifications (KnowledgeBaseC.assert_fact fs p) q =
      get_unifications fs q := by
  unfold KnowledgeBaseC.assert_fact
  split
  · exact gu_insert_other hn
  · rfl

theorem gu_ghosts_fold_other {others : List (String × Coord)} {fs : Facts}
    {q : FolPred} (hq : q.name ≠ .GhostPos) :
    get_unifications (others.foldl
      (fun fs g => KnowledgeBaseC.assert_fact fs (ghostPosP (.s g.1) g.2)) fs) q =
      get_unifications fs q := by
  induction others generalizing fs with
  | nil => rfl
  | cons o os ih =>
    rw [List.foldl_cons, ih, gu_assert_other (fun hc => hq hc.symm)]

theorem vacuum_position_functional (fs : Facts) (p : FolPred)
    (hn : p.name = .Position) (hg : p.is_ground = true) :
    KnowledgeBaseWithFOL.tell fs p =
      .ok (insertFact (fs.filter (fun f => f.name ≠ .Position)) p) ∧
    (insertFact (fs.filter (fun f => f.name ≠ .Position)) p).filter
      (fun f => f.name = .Position) = [p] := by
  constructor
  · unfold KnowledgeBaseWithFOL.tell
    rw [hg, if_pos rfl, if_pos hn]
  · have hnot : p ∉ fs.filter (fun f => f.name ≠ .Position) := by
      intro hc
      have := (List.mem_filter.mp hc).2
      rw [hn] at this
      simp at this
    unfold insertFact
    rw [if_neg hnot, List.filter_append]
    have h1 : (fs.filter (fun f => f.name ≠ .Position)).filter
        (fun f => f.name = .Position) = [] := by
      rw [List.filter_eq_nil_iff]
      intro f hf
      have := (List.mem_filter.mp hf).2
      simpa using this
    rw [h1]
    simp [hn]

theorem gu_retract_nil {fs : Facts} {q t : FolPred}
    (hq : get_unifications fs q = []) :
    get_unifications (retractMatching fs t) q = [] := by
  unfold retractMatching
  exact gu_filter_nil hq

theorem gu_assert_len (fs : Facts) (p q : FolPred) :
    (get_unifications (KnowledgeBaseC.assert_fact fs p) q).length ≤
      (get_unifications fs q).length + 1 := by
  unfold KnowledgeBaseC.assert_fact
  split
  · exact gu_insert_len p q
  · omega

/-- After `_retract_dynamic_beliefs`, the `GhostPos('C', …)` assertion and
the other-ghost assertions, no stored fact answers `PacmanPos(X, Y)`. -/
theorem gu_pacmanpos_after_dyn (fs0 : Facts) (myPos : Coord)
    (others : List (String × Coord)) :
    get_unifications (others.foldl
      (fun fs g => KnowledgeBaseC.assert_fact fs (ghostPosP (.s g.1) g.2))
      (KnowledgeBaseC.assert_fact (KnowledgeBaseC.retract_dynamic_beliefs fs0)
        (ghostPosP (.s "C") myPos))) pacmanPosTmpl = [] := by
  rw [gu_ghosts_fold_other (by simp [pacmanPosTmpl]),
    gu_assert_other (by simp [ghostPosP, pacmanPosTmpl])]
  unfold KnowledgeBaseC.retract_dynamic_beliefs
  exact gu_retract_nil (gu_retract_self _ _)

/-- C4 counterexample: ghost C's `_assert_fact` performs no functional
removal — asserting two ground position facts for the same agent in
sequence leaves *both* in the store, refuting "assert first removes all
stored facts of the same predicate type whose key arguments match". -/
theorem C4_assert_keeps_both_positions :
    KnowledgeBaseC.assert_fact (KnowledgeBaseC.assert_fact []
        (ghostPosP (.s "C") (1, 1))) (ghostPosP (.s "C") (2, 2)) =
      [ghostPosP (.s "C") (1, 1), ghostPosP (.s "C") (2, 2)] := by decide

/-- C4 (amended): the vacuum KB's `tell` first removes every stored
`Position` fact and then inserts, so two sequential position assertions
leave exactly the last one; ghost C's `_assert_fact` only inserts, and the
uniqueness of its dynamic position beliefs is restored per tick by `tell`,
which retracts all dynamic facts before re-asserting — after any `tell`, at
most one stored fact answers the `PacmanPos(X, Y)` query. -/
theorem C4_functional_position :
    (∀ (fs : Facts) (x1 y1 x2 y2 : Int) (fs1 fs2 : Facts),
      KnowledgeBaseWithFOL.tell fs (locPred .Position (x1, y1)) = .ok fs1 →
      KnowledgeBaseWithFOL.tell fs1 (locPred .Position (x2, y2)) = .ok fs2 →
      fs2.filter (fun f => f.name = .Position) = [locPred .Position (x2, y2)]) ∧
    (∀ (kb : KBC) (myPos : Coord) (pac : Option Coord)
      (others : List (String × Coord)) (per : Percept),
      (get_unifications (KnowledgeBaseC.tell kb myPos pac others per).facts
        pacmanPosTmpl).length ≤ 1) := by
  constructor
  · intro fs x1 y1 x2 y2 fs1 fs2 _ h2
    have hv := vacuum_position_functional fs1 (locPred .Position (x2, y2)) rfl rfl
    rw [hv.1] at h2
    cases h2
    exact hv.2
  · intro kb myPos pac others per
    unfold KnowledgeBaseC.tell
    dsimp only
    match pac with
    | none =>
      dsimp only
      rw [gu_pacmanpos_after_dyn]
      simp
    | some pp =>
      dsimp only
      rw [gu_assert_other (by simp [pacmanVectorP, pacmanPosTmpl])]
      refine le_trans (gu_assert_len _ _ _) ?_
      rw [gu_pacmanpos_after_dyn]
      simp

/-- C4 witness: both parts evaluated on concrete runs. -/
theorem C4_functional_position_witness :
    ([locPred .Position (5, 7)] : Facts).filter (fun f => f.name = .Position) =
      [locPred .Position (5, 7)] ∧
    (get_unifications (KnowledgeBaseC.tell KnowledgeBaseC.init (0, 0)
      (some (1, 0)) [] []).facts pacmanPosTmpl).length ≤ 1 :=
  ⟨C4_functional_position.1 [] 0 0 5 7 [locPred .Position (0, 0)]
      [locPred .Position (5, 7)] rfl rfl,
   C4_functional_position.2 KnowledgeBaseC.init (0, 0) (some (1, 0)) [] []⟩

/-! ## 15. Claim C3: unification against ground facts -/

theorem unifyArgs_query_spec {qs fs : List Arg} (hqf : List.Forall₂ QArg qs fs) :
    ∀ acc : Subst, (varNames qs).Nodup →
    (∀ x ∈ varNames qs, substLookup acc x = none) →
    ∃ σ, unifyArgs qs fs acc = some σ ∧
      (∀ x v, substLookup acc x = some v → substLookup σ x = some v) ∧
      List.Forall₂ (fun qa fa => ∀ x, qa = Arg.t (.var x) →
        ∃ v, fa = .t (.const v) ∧ substLookup σ x = some v) qs fs ∧
      (varNames qs = [] → σ = acc) := by
  induction hqf with
  | nil =>
    intro acc _ _
    exact ⟨acc, rfl, fun _ _ h => h, .nil, fun _ => rfl⟩
  | @cons qa fa qs fs hqa hrest ih =>
    intro acc hnd hacc
    cases hqa with
    | keep v =>
      obtain ⟨σ, h1, h2, h3, h4⟩ := ih acc hnd hacc
      refine ⟨σ, ?_, h2, .cons ?_ h3, h4⟩
      · show (if v = v then unifyArgs qs fs acc else none) = some σ
        rw [if_pos rfl]
        exact h1
      · intro x hx
        cases hx
    | fresh x v =>
      have hx0 : substLookup acc x = none := hacc x (List.mem_cons_self x _)
      have hnd2 : (x :: varNames qs).Nodup := hnd
      have hnd' : (varNames qs).Nodup := hnd2.of_cons
      have hxnotin : x ∉ varNames qs := (List.nodup_cons.mp hnd2).1
      have hacc' : ∀ y ∈ varNames qs, substLookup ((x, v) :: acc) y = none := by
        intro y hy
        have hne : x ≠ y := fun h => hxnotin (h ▸ hy)
        show (if x = y then some v else substLookup acc y) = none
        rw [if_neg hne]
        exact hacc y (List.mem_cons_of_mem _ hy)
      obtain ⟨σ, h1, h2, h3, h4⟩ := ih ((x, v) :: acc) hnd' hacc'
      have hσx : substLookup σ x = some v := by
        apply h2
        show (if x = x then some v else substLookup acc x) = some v
        rw [if_pos rfl]
      refine ⟨σ, ?_, ?_, .cons ?_ h3, ?_⟩
      · show (match substLookup acc x with
          | some w' => if w' = v then unifyArgs qs fs acc else none
          | none => unifyArgs qs fs ((x, v) :: acc)) = some σ
        rw [hx0]
        exact h1
      · intro y w hyw
        apply h2
        show (if x = y then some v else substLookup acc y) = some w
        by_cases hxy : x = y
        · rw [← hxy] at hyw
          rw [hx0] at hyw
          cases hyw
        · rw [if_neg hxy]
          exact hyw
      · intro y hy
        cases hy
        exact ⟨v, rfl, hσx⟩
      · intro hcontra
        simp [varNames] at hcontra

theorem unifyArgs_ground_ne :
    ∀ (ps qs : List Arg) (acc : Subst), ps.all Arg.isConst → qs.all Arg.isConst →
      ps ≠ qs → unifyArgs ps qs acc = none := by
  intro ps
  induction ps with
  | nil =>
    intro qs acc _ _ hne
    cases qs with
    | nil => exact absurd rfl hne
    | cons q qs => rfl
  | cons p ps ih =>
    intro qs acc hp hq hne
    cases qs with
    | nil => rfl
    | cons q qs =>
      rw [List.all_cons, Bool.and_eq_true] at hp hq
      obtain ⟨v, rfl⟩ : ∃ v, p = Arg.t (.const v) := by
        cases p with
        | t t0 =>
          cases t0 with
          | const v => exact ⟨v, rfl⟩
          | var _ => cases hp.1
        | raw _ => cases hp.1
      obtain ⟨w, rfl⟩ : ∃ w, q = Arg.t (.const w) := by
        cases q with
        | t t0 =>
          cases t0 with
          | const w => exact ⟨w, rfl⟩
          | var _ => cases hq.1
        | raw _ => cases hq.1
      show (if v = w then unifyArgs ps qs acc else none) = none
      by_cases hvw : v = w
      · rw [if_pos hvw]
        refine ih qs acc hp.2 hq.2 ?_
        intro hc
        exact hne (by rw [hvw, hc])
      · rw [if_neg hvw]

/-- C3: (a) any query obtained from a ground fact by keeping some constants
and replacing the others with pairwise-distinct fresh variables unifies with
the fact, the substitution sending each variable to the constant in that
argument position (empty when the query is the ground fact itself); (b) two
same-class ground predicates differing in their arguments never unify. -/
theorem C3_unify_spec :
    (∀ (query fact : FolPred), query.name = fact.name →
      List.Forall₂ QArg query.args fact.args →
      (varNames query.args).Nodup →
      ∃ σ, unify query fact = some σ ∧
        List.Forall₂ (fun qa fa => ∀ x, qa = Arg.t (.var x) →
          ∃ v, fa = .t (.const v) ∧ substLookup σ x = some v) query.args fact.args ∧
        (varNames query.args = [] → σ = [])) ∧
    (∀ (p q : FolPred), p.name = q.name → p.is_ground = true →
      q.is_ground = true → p.args ≠ q.args → unify p q = none) := by
  constructor
  · intro query fact hname hqf hnd
    obtain ⟨σ, h1, _, h3, h4⟩ := unifyArgs_query_spec hqf []
      hnd (fun x _ => rfl)
    refine ⟨σ, ?_, h3, h4⟩
    unfold unify
    rw [if_pos hname, if_pos hqf.length_eq]
    exact h1
  · intro p q hname hp hq hne
    unfold unify
    rw [if_pos hname]
    by_cases hlen : p.args.length = q.args.length
    · rw [if_pos hlen]
      exact unifyArgs_ground_ne p.args q.args [] hp hq hne
    · rw [if_neg hlen]

/-- C3 witness: a `GhostPos` fact queried with one fresh variable and two
kept constants, and two ground `Position` facts differing in one argument. -/
theorem C3_unify_spec_witness :
    (∃ σ, unify ⟨.GhostPos, [varA "G", constI 3, constI 4]⟩
        ⟨.GhostPos, [constS "A", constI 3, constI 4]⟩ = some σ ∧
      List.Forall₂ (fun qa fa => ∀ x, qa = Arg.t (.var x) →
          ∃ v, fa = .t (.const v) ∧ substLookup σ x = some v)
        [varA "G", constI 3, constI 4] [constS "A", constI 3, constI 4] ∧
      (varNames [varA "G", constI 3, constI 4] = [] → σ = [])) ∧
    unify (locPred .Position (1, 2)) (locPred .Position (1, 3)) = none :=
  ⟨C3_unify_spec.1 ⟨.GhostPos, [varA "G", constI 3, constI 4]⟩
      ⟨.GhostPos, [constS "A", constI 3, constI 4]⟩ rfl
      (.cons (QArg.fresh "G" (.s "A"))
        (.cons (QArg.keep (.i 3)) (.cons (QArg.keep (.i 4)) .nil)))
      (by decide),
   C3_unify_spec.2 (locPred .Position (1, 2)) (locPred .Position (1, 3)) rfl
      (by decide) (by decide) (by decide)⟩

/-! ## 16. Claim C5: wall/safe mutual exclusion -/

theorem mem_addC {l : List Coord} {c x : Coord} :
    x ∈ KnowledgeBaseA.addC l c ↔ x ∈ l ∨ x = c := by
  unfold KnowledgeBaseA.addC
  split
  · next h =>
    constructor
    · exact Or.inl
    · rintro (hx | rfl)
      · exact hx
      · exact h
  · simp [List.mem_append]

theorem mem_delC {l : List Coord} {c x : Coord} :
    x ∈ KnowledgeBaseA.delC l c ↔ x ∈ l ∧ x ≠ c := by
  unfold KnowledgeBaseA.delC
  rw [List.mem_filter]
  simp

/-- `_update_state_logic` touches only the state propositions, never the
map. -/
theorem update_state_logic_map (kb : KBA) (r : PyRandom) :
    (KnowledgeBaseA.update_state_logic kb r).1.walls = kb.walls ∧
    (KnowledgeBaseA.update_state_logic kb r).1.safe_tiles = kb.safe_tiles := by
  unfold KnowledgeBaseA.update_state_logic
  dsimp only
  repeat' split
  all_goals exact ⟨rfl, rfl⟩

/-- `_infer_junction` touches only the junction set. -/
theorem infer_junction_map (kb : KBB) (p : Coord) :
    (KnowledgeBaseB.infer_junction kb p).walls = kb.walls ∧
    (KnowledgeBaseB.infer_junction kb p).safe_tiles = kb.safe_tiles := by
  unfold KnowledgeBaseB.infer_junction
  repeat' split
  all_goals exact ⟨rfl, rfl⟩

theorem foldl_map_preserve {α : Type} (l : List α) (kb : KBB) (f : KBB → α → KBB)
    (hf : ∀ kb a, (f kb a).walls = kb.walls ∧ (f kb a).safe_tiles = kb.safe_tiles) :
    (l.foldl f kb).walls = kb.walls ∧ (l.foldl f kb).safe_tiles = kb.safe_tiles := by
  induction l generalizing kb with
  | nil => exact ⟨rfl, rfl⟩
  | cons a l ih =>
    rw [List.foldl_cons]
    exact ⟨(ih (f kb a)).1.trans (hf kb a).1, (ih (f kb a)).2.trans (hf kb a).2⟩

/-- What `_mark_safe` does to the wall and safe sets: either nothing (tile
already safe) or the tile moves from the walls to the safe set. -/
theorem mark_safe_map (kb : KBB) (pos : Coord) :
    ((KnowledgeBaseB.mark_safe kb pos).walls = kb.walls ∧
     (KnowledgeBaseB.mark_safe kb pos).safe_tiles = kb.safe_tiles) ∨
    ((KnowledgeBaseB.mark_safe kb pos).walls = KnowledgeBaseA.delC kb.walls pos ∧
     (KnowledgeBaseB.mark_safe kb pos).safe_tiles =
       KnowledgeBaseA.addC kb.safe_tiles pos) := by
  unfold KnowledgeBaseB.mark_safe
  split
  · exact Or.inl ⟨rfl, rfl⟩
  · right
    dsimp only
    have h1 := foldl_map_preserve (get_neighbors pos)
      ({ kb with safe_tiles := KnowledgeBaseA.addC kb.safe_tiles pos,
                 walls := KnowledgeBaseA.delC kb.walls pos,
                 unknown_tiles := KnowledgeBaseA.delC kb.unknown_tiles pos })
      (fun kb n =>
        if n ∉ kb.safe_tiles ∧ n ∉ kb.walls then
          { kb with unknown_tiles := KnowledgeBaseA.addC kb.unknown_tiles n }
        else kb)
      (by intro kb a; dsimp only; split <;> exact ⟨rfl, rfl⟩)
    have h2 := infer_junction_map (KnowledgeBaseB.infer_junction
      ((get_neighbors pos).foldl (fun kb n =>
        if n ∉ kb.safe_tiles ∧ n ∉ kb.walls then
          { kb with unknown_tiles := KnowledgeBaseA.addC kb.unknown_tiles n }
        else kb)
        ({ kb with safe_tiles := KnowledgeBaseA.addC kb.safe_tiles pos,
                   walls := KnowledgeBaseA.delC kb.walls pos,
                   unknown_tiles := KnowledgeBaseA.delC kb.unknown_tiles pos })) pos)
    refine ⟨?_, ?_⟩
    · refine ((foldl_map_preserve _ _ _ ?_).1.trans ?_)
      · intro kb n
        dsimp only
        split
        · exact infer_junction_map kb n
        · exact ⟨rfl, rfl⟩
      · exact ((infer_junction_map _ _).1.trans h1.1)
    · refine ((foldl_map_preserve _ _ _ ?_).2.trans ?_)
      · intro kb n
        dsimp only
        split
        · exact infer_junction_map kb n
        · exact ⟨rfl, rfl⟩
      · exact ((infer_junction_map _ _).2.trans h1.2)

theorem disj_mark_safe {kb : KBB} (h : DisjWS kb) (pos : Coord) :
    DisjWS (KnowledgeBaseB.mark_safe kb pos) := by
  rcases mark_safe_map kb pos with ⟨hw, hs⟩ | ⟨hw, hs⟩
  · intro x hx
    rw [hw] at hx
    rw [hs]
    exact h x hx
  · intro x hx
    rw [hw, mem_delC] at hx
    rw [hs, mem_addC]
    rintro (hxs | rfl)
    · exact h x hx.1 hxs
    · exact hx.2 rfl

theorem disj_perceptLoop {per : Percept} {s : KBB × Option Coord}
    (h : DisjWS s.1) :
    DisjWS (per.foldl (fun s pi =>
      let kb := s.1
      let nc := s.2
      if pi.2 = "WALL" then
        ({ kb with walls := KnowledgeBaseA.addC kb.walls pi.1,
                   safe_tiles := KnowledgeBaseA.delC kb.safe_tiles pi.1,
                   unknown_tiles := KnowledgeBaseA.delC kb.unknown_tiles pi.1,
                   junctions := KnowledgeBaseA.delC kb.junctions pi.1 }, nc)
      else
        let kb := KnowledgeBaseB.mark_safe kb pi.1
        if pi.2 = "PELLET" then
          ({ kb with believed_pellets := KnowledgeBaseA.addC kb.believed_pellets pi.1 }, nc)
        else if pi.2 = "EMPTY" then
          if pi.1 ∈ kb.believed_pellets then
            ({ kb with believed_pellets := KnowledgeBaseA.delC kb.believed_pellets pi.1 },
              some pi.1)
          else (kb, nc)
        else (kb, nc)) s).1 := by
  induction per generalizing s with
  | nil => exact h
  | cons pi per ih =>
    rw [List.foldl_cons]
    apply ih
    dsimp only
    split
    · intro x hx
      rw [mem_addC] at hx
      rw [mem_delC]
      rintro ⟨hxs, hne⟩
      rcases hx with hx | rfl
      · exact h x hx hxs
      · exact hne rfl
    · have hm := disj_mark_safe h pi.1
      split
      · exact hm
      · split
        · split
          · exact hm
          · exact hm
        · exact hm

theorem disjWS_congr {kb kb' : KBB} (hw : kb'.walls = kb.walls)
    (hs : kb'.safe_tiles = kb.safe_tiles) (h : DisjWS kb) : DisjWS kb' := by
  intro x hx
  rw [hw] at hx
  rw [hs]
  exact h x hx

theorem disj_perceptLoop' {kb : KBB} {per : Percept} (h : DisjWS kb) :
    DisjWS (KnowledgeBaseB.perceptLoop kb per).1 := by
  unfold KnowledgeBaseB.perceptLoop
  exact @disj_perceptLoop per (kb, none) h

theorem disj_tellTail (pl : KBB × Option Coord) (pac : Option Coord)
    (hP : DisjWS pl.1) : DisjWS (KnowledgeBaseB.tellTail pl pac) := by
  unfold KnowledgeBaseB.tellTail
  dsimp only
  match pac with
  | some pp => exact disjWS_congr rfl rfl hP
  | none =>
    dsimp only
    split
    · split
      · exact disjWS_congr rfl rfl hP
      · exact disjWS_congr rfl rfl hP
    · exact disjWS_congr rfl rfl hP

theorem disj_tellB (kb : KBB) (myPos : Coord) (pac : Option Coord)
    (per : Percept) (h : DisjWS kb) :
    DisjWS (KnowledgeBaseB.tell kb myPos pac per) := by
  unfold KnowledgeBaseB.tell
  dsimp only
  have hK : DisjWS (if ¬ (kb.initialized = true) then
      { (get_neighbors myPos).foldl
          (fun kb n =>
            if n ∉ kb.walls then
              { kb with unknown_tiles := KnowledgeBaseA.addC kb.unknown_tiles n }
            else kb)
          (KnowledgeBaseB.mark_safe
            { kb with my_pos := some myPos, percepts := per } myPos)
        with initialized := true }
    else KnowledgeBaseB.mark_safe
      { kb with my_pos := some myPos, percepts := per } myPos) := by
    have hm : DisjWS (KnowledgeBaseB.mark_safe
        { kb with my_pos := some myPos, percepts := per } myPos) :=
      @disj_mark_safe { kb with my_pos := some myPos, percepts := per } h myPos
    split
    · have hp := foldl_map_preserve (get_neighbors myPos)
        (KnowledgeBaseB.mark_safe { kb with my_pos := some myPos, percepts := per } myPos)
        (fun kb n =>
          if n ∉ kb.walls then
            { kb with unknown_tiles := KnowledgeBaseA.addC kb.unknown_tiles n }
          else kb)
        (by intro kb a; dsimp only; split <;> exact ⟨rfl, rfl⟩)
      exact disjWS_congr hp.1 hp.2 hm
    · exact hm
  have hP := @disj_perceptLoop' _ per hK
  exact disj_tellTail _ pac hP

theorem unifyArgs_self {args : List Arg} (h : args.all Arg.isConst = true) :
    ∀ acc, unifyArgs args args acc = some acc := by
  induction args with
  | nil => intro acc; rfl
  | cons a args ih =>
    intro acc
    rw [List.all_cons, Bool.and_eq_true] at h
    obtain ⟨v, rfl⟩ : ∃ v, a = Arg.t (.const v) := by
      cases a with
      | t t0 =>
        cases t0 with
        | const v => exact ⟨v, rfl⟩
        | var _ => cases h.1
      | raw _ => cases h.1
    show (if v = v then unifyArgs args args acc else none) = some acc
    rw [if_pos rfl]
    exact ih h.2 acc

theorem unify_self {q : FolPred} (h : q.is_ground = true) : unify q q = some [] := by
  unfold unify
  rw [if_pos rfl, if_pos rfl]
  exact unifyArgs_self h []

/-- C5 counterexample: in ghost A's KB, a tile perceived WALL and later
perceived non-WALL is simultaneously marked wall *and* safe, because the
safe assertion does not retract the wall proposition. -/
theorem C5_ghostA_wall_and_safe :
    (2, 2) ∈ kbA_two_ticks.1.walls ∧ (2, 2) ∈ kbA_two_ticks.1.safe_tiles := by
  constructor <;> decide

/-- C5 (amended): asserting a wall retracts the safe belief in every ghost
KB, and ghost B's safe assertion also retracts the wall belief, so ghost B
keeps walls and safe tiles disjoint across every TELL; ghosts A and C,
however, assert safe without retracting wall, so only the wall-assertion
direction holds there (ghost C retracts the safe fact only when the wall is
newly learned). -/
theorem C5_wall_safe_exclusion :
    (∀ (kb : KBB) (myPos : Coord) (pac : Option Coord) (per : Percept),
      (∀ x ∈ kb.walls, x ∉ kb.safe_tiles) →
      ∀ x ∈ (KnowledgeBaseB.tell kb myPos pac per).walls,
        x ∉ (KnowledgeBaseB.tell kb myPos pac per).safe_tiles) ∧
    (∀ (kb : KBA) (myPos : Coord) (pac : Option Coord) (p : Coord) (r : PyRandom),
      p ∈ (KnowledgeBaseA.tell kb myPos pac [(p, "WALL")] r).1.walls ∧
      p ∉ (KnowledgeBaseA.tell kb myPos pac [(p, "WALL")] r).1.safe_tiles) ∧
    (∀ (fs : Facts) (myPos : Coord) (p : Coord),
      queryExists fs (locPred .LearnedWall p) = false →
      locPred .LearnedWall p ∈
        KnowledgeBaseC.learn_map_topology fs myPos [(p, "WALL")] ∧
      locPred .LearnedSafe p ∉
        KnowledgeBaseC.learn_map_topology fs myPos [(p, "WALL")]) := by
  refine ⟨fun kb myPos pac per h => disj_tellB kb myPos pac per h, ?_, ?_⟩
  · intro kb myPos pac p r
    unfold KnowledgeBaseA.tell KnowledgeBaseA.applyPercepts
    dsimp only
    rw [List.foldl_cons, List.foldl_nil]
    dsimp only
    rw [if_pos rfl]
    constructor
    · rw [(update_state_logic_map _ _).1]
      exact mem_addC.mpr (Or.inr rfl)
    · rw [(update_state_logic_map _ _).2]
      intro hc
      exact (mem_delC.mp hc).2 rfl
  · intro fs myPos p hq
    unfold KnowledgeBaseC.learn_map_topology
    dsimp only
    rw [List.foldl_cons, List.foldl_nil]
    dsimp only
    rw [if_pos rfl]
    have hq1 : queryExists
        (if queryExists fs (locPred .LearnedSafe myPos) then fs
         else KnowledgeBaseC.assert_fact fs (locPred .LearnedSafe myPos))
        (locPred .LearnedWall p) = false := by
      split
      · exact hq
      · unfold queryExists at hq ⊢
        rw [gu_assert_other (by simp [locPred])]
        exact hq
    rw [if_neg (by rw [hq1]; exact Bool.false_ne_true)]
    constructor
    · refine List.mem_filter.mpr ⟨?_, ?_⟩
      · have : (locPred .LearnedWall p).is_ground = true := rfl
        unfold KnowledgeBaseC.assert_fact
        rw [this]
        exact mem_insertFact.mpr (Or.inr rfl)
      · show ((unify (locPred .LearnedSafe p) (locPred .LearnedWall p)).isNone) = true
        unfold unify
        rw [if_neg (by simp [locPred])]
        rfl
    · intro hc
      have := (List.mem_filter.mp hc).2
      rw [show (unify (locPred .LearnedSafe p) (locPred .LearnedSafe p)) = some []
        from unify_self rfl] at this
      cases this

/-- C5 witness: ghost B's exclusion evaluated after one WALL percept from a
fresh KB, and ghost C's newly-learned wall retracting the safe fact. -/
theorem C5_wall_safe_exclusion_witness :
    ((1, 0) ∈ (KnowledgeBaseB.tell KnowledgeBaseB.init (0, 0) none
        [((1, 0), "WALL")]).walls ∧
     (1, 0) ∉ (KnowledgeBaseB.tell KnowledgeBaseB.init (0, 0) none
        [((1, 0), "WALL")]).safe_tiles) ∧
    (locPred .LearnedWall (5, 5) ∈
        KnowledgeBaseC.learn_map_topology [locPred .LearnedSafe (5, 5)] (0, 0)
          [((5, 5), "WALL")] ∧
     locPred .LearnedSafe (5, 5) ∉
        KnowledgeBaseC.learn_map_topology [locPred .LearnedSafe (5, 5)] (0, 0)
          [((5, 5), "WALL")]) :=
  ⟨⟨by decide,
    C5_wall_safe_exclusion.1 KnowledgeBaseB.init (0, 0) none [((1, 0), "WALL")]
      (by intro x hx; cases hx) (1, 0) (by decide)⟩,
   C5_wall_safe_exclusion.2.2 [locPred .LearnedSafe (5, 5)] (0, 0) (5, 5)
     (by decide)⟩

/-! ## 17. Claim C6: the PacmanVector belief -/

theorem gu_vec_after_dyn (fs0 : Facts) (myPos : Coord)
    (others : List (String × Coord)) :
    get_unifications (others.foldl
      (fun fs g => KnowledgeBaseC.assert_fact fs (ghostPosP (.s g.1) g.2))
      (KnowledgeBaseC.assert_fact (KnowledgeBaseC.retract_dynamic_beliefs fs0)
        (ghostPosP (.s "C") myPos))) vecTmpl = [] := by
  rw [gu_ghosts_fold_other (by simp [vecTmpl]),
    gu_assert_other (by simp [ghostPosP, vecTmpl])]
  unfold KnowledgeBaseC.retract_dynamic_beliefs
  exact gu_retract_self _ _

theorem not_mem_of_gu_nil {fs : Facts} {q p : FolPred}
    (hgu : get_unifications fs q = []) (hn : p.name = q.name)
    (hu : (unify q p).isSome) : p ∉ fs := by
  intro hmem
  unfold get_unifications at hgu
  rw [List.filterMap_eq_nil_iff] at hgu
  have := hgu p hmem
  rw [if_pos hn] at this
  rw [this] at hu
  cases hu

theorem gu_insert_fresh {fs : Facts} {p q : FolPred} {σ : Subst}
    (hgu : get_unifications fs q = []) (hn : p.name = q.name)
    (hu : unify q p = some σ) :
    get_unifications (insertFact fs p) q = [σ] := by
  have hnm := not_mem_of_gu_nil hgu hn (by rw [hu]; rfl)
  unfold insertFact
  rw [if_neg hnm]
  unfold get_unifications at hgu ⊢
  rw [List.filterMap_append, hgu]
  simp [hn, hu]

/-- C6 counterexample: a `PacmanVector(0,0)` fact is asserted on the very
first sighting (zero displacement), and the vector fact asserted while the
target moved does *not* persist in the store through a tick without
visibility — `_retract_dynamic_beliefs` removes it and nothing re-asserts
it. -/
theorem C6_vector_fact_not_persistent :
    (KnowledgeBaseC.tell KnowledgeBaseC.init (0, 0) (some (3, 0)) [] []).facts.filter
        (fun f => f.name = .PacmanVector) = [pacmanVectorP (0, 0)] ∧
    kbC_seen.facts.filter (fun f => f.name = .PacmanVector) =
      [pacmanVectorP (1, 0)] ∧
    kbC_hidden.facts.filter (fun f => f.name = .PacmanVector) = [] := by
  refine ⟨by decide, by decide, by decide⟩

/-- C6 (amended): the *internal* `last_pacman_vector` is updated to the
displacement between consecutive observed positions only when that
displacement is non-zero and persists otherwise; but the `PacmanVector`
*fact* is retracted on every TELL and re-asserted only on ticks where the
target is visible (carrying the persisted internal vector, `(0,0)` before
any displacement was observed), so no vector fact is in the store after a
TELL without visibility. -/
theorem C6_vector_behaviour :
    ∀ (kb : KBC) (myPos : Coord) (pac : Option Coord)
      (others : List (String × Coord)) (per : Percept),
      ((KnowledgeBaseC.tell kb myPos pac others per).last_pacman_vector =
        match pac, kb.last_pacman_pos with
        | some pp, some lp =>
          if pp.1 - lp.1 ≠ 0 ∨ pp.2 - lp.2 ≠ 0 then (pp.1 - lp.1, pp.2 - lp.2)
          else kb.last_pacman_vector
        | _, _ => kb.last_pacman_vector) ∧
      (pac = none →
        get_unifications (KnowledgeBaseC.tell kb myPos pac others per).facts
          vecTmpl = []) ∧
      (∀ pp, pac = some pp →
        get_unifications (KnowledgeBaseC.tell kb myPos pac others per).facts
          vecTmpl =
          [[("DY", Val.i (KnowledgeBaseC.tell kb myPos pac others
              per).last_pacman_vector.2),
            ("DX", Val.i (KnowledgeBaseC.tell kb myPos pac others
              per).last_pacman_vector.1)]]) := by
  intro kb myPos pac others per
  refine ⟨?_, ?_, ?_⟩
  · unfold KnowledgeBaseC.tell
    dsimp only
    match pac with
    | none => rfl
    | some pp =>
      dsimp only
      match kb.last_pacman_pos with
      | none => rfl
      | some lp => rfl
  · rintro rfl
    unfold KnowledgeBaseC.tell
    dsimp only
    exact gu_vec_after_dyn _ _ _
  · rintro pp rfl
    unfold KnowledgeBaseC.tell
    dsimp only
    refine gu_insert_fresh ?_ rfl rfl
    rw [gu_assert_other (by simp [locPred, vecTmpl])]
    exact gu_vec_after_dyn _ _ _

/-- C6 witness: the fact-absence part applied to the third tick of the
concrete scenario and the visible part to its second tick. -/
theorem C6_vector_behaviour_witness :
    get_unifications kbC_hidden.facts vecTmpl = [] ∧
    get_unifications kbC_seen.facts vecTmpl =
      [[("DY", Val.i 0), ("DX", Val.i 1)]] :=
  ⟨(C6_vector_behaviour kbC_seen (0, 0) none [] []).2.1 rfl,
   (C6_vector_behaviour
      (KnowledgeBaseC.tell KnowledgeBaseC.init (0, 0) (some (3, 0)) [] [])
      (0, 0) (some (4, 0)) [] []).2.2 (4, 0) rfl⟩

/-! ## 18. Claim C7: the pursuer state machine -/

theorem applyPercepts_fields (per : Percept) (kb : KBA) :
    (KnowledgeBaseA.applyPercepts kb per).current_state = kb.current_state ∧
    (KnowledgeBaseA.applyPercepts kb per).last_known_pacman = kb.last_known_pacman ∧
    (KnowledgeBaseA.applyPercepts kb per).investigation_target =
      kb.investigation_target ∧
    (KnowledgeBaseA.applyPercepts kb per).my_pos = kb.my_pos := by
  unfold KnowledgeBaseA.applyPercepts
  induction per generalizing kb with
  | nil => exact ⟨rfl, rfl, rfl, rfl⟩
  | cons pi per ih =>
    rw [List.foldl_cons]
    try dsimp only
    split
    · exact ih _
    · exact ih _

theorem usl_see {kb : KBA} {r : PyRandom} (h : kb.see_pacman = true) :
    (KnowledgeBaseA.update_state_logic kb r).1.current_state = "CHASING" ∧
    (KnowledgeBaseA.update_state_logic kb r).1.last_known_pacman =
      kb.pacman_pos_percept := by
  unfold KnowledgeBaseA.update_state_logic
  dsimp only
  rw [if_pos h]
  exact ⟨rfl, rfl⟩

theorem usl_lost {kb : KBA} {r : PyRandom} (h0 : kb.see_pacman = false)
    (h1 : kb.current_state = "CHASING") :
    (KnowledgeBaseA.update_state_logic kb r).1.current_state = "PURSUING" ∧
    (KnowledgeBaseA.update_state_logic kb r).1.last_known_pacman =
      kb.last_known_pacman := by
  unfold KnowledgeBaseA.update_state_logic
  dsimp only
  rw [if_neg (by rw [h0]; exact Bool.false_ne_true), if_pos h1]
  exact ⟨rfl, rfl⟩

theorem usl_stay {kb : KBA} {r : PyRandom} {p2 : Coord}
    (h0 : kb.see_pacman = false) (h1 : kb.current_state = "PURSUING")
    (h2 : kb.last_known_pacman = some p2) (h3 : kb.my_pos ≠ p2) :
    (KnowledgeBaseA.update_state_logic kb r).1.current_state =
      kb.current_state ∧
    (KnowledgeBaseA.update_state_logic kb r).1.last_known_pacman =
      kb.last_known_pacman := by
  unfold KnowledgeBaseA.update_state_logic
  dsimp only
  rw [if_neg (by rw [h0]; exact Bool.false_ne_true),
    if_neg (by rw [h1]; decide),
    if_neg (by
      rintro ⟨_, hc⟩
      rw [h2] at hc
      exact h3 (Option.some_injective _ hc)),
    if_neg (by rw [h1]; decide)]
  exact ⟨rfl, rfl⟩

theorem usl_arrive {kb : KBA} {r : PyRandom}
    (h0 : kb.see_pacman = false) (h1 : kb.current_state = "PURSUING")
    (h2 : kb.last_known_pacman = some kb.my_pos)
    (h3 : (KnowledgeBaseA.nbrs kb.my_pos).filter
      (fun n => n ∉ kb.walls) ≠ []) :
    (KnowledgeBaseA.update_state_logic kb r).1.current_state =
      "INVESTIGATING" := by
  unfold KnowledgeBaseA.update_state_logic
  dsimp only
  rw [if_neg (by rw [h0]; exact Bool.false_ne_true),
    if_neg (by rw [h1]; decide),
    if_pos (And.intro h1 (by rw [h2])), dif_neg h3]

theorem tellA_visible (kb : KBA) (myPos : Coord) (pp : Coord) (per : Percept)
    (r : PyRandom) :
    (KnowledgeBaseA.tell kb myPos (some pp) per r).1.current_state =
      "CHASING" ∧
    (KnowledgeBaseA.tell kb myPos (some pp) per r).1.last_known_pacman =
      some pp := by
  unfold KnowledgeBaseA.tell
  dsimp only
  exact usl_see rfl

theorem tellA_lost (kb : KBA) (myPos : Coord) (per : Percept) (r : PyRandom)
    (h1 : kb.current_state = "CHASING") :
    (KnowledgeBaseA.tell kb myPos none per r).1.current_state = "PURSUING" ∧
    (KnowledgeBaseA.tell kb myPos none per r).1.last_known_pacman =
      kb.last_known_pacman := by
  unfold KnowledgeBaseA.tell
  dsimp only
  have hf := applyPercepts_fields per { kb with my_pos := myPos }
  refine ⟨(usl_lost rfl ?_).1, ((usl_lost rfl ?_).2).trans ?_⟩
  · exact hf.1.trans h1
  · exact hf.1.trans h1
  · exact hf.2.1

theorem tellA_stay (kb : KBA) (myPos : Coord) (per : Percept) (r : PyRandom)
    {p2 : Coord} (h1 : kb.current_state = "PURSUING")
    (h2 : kb.last_known_pacman = some p2) (h3 : myPos ≠ p2) :
    (KnowledgeBaseA.tell kb myPos none per r).1.current_state = "PURSUING" ∧
    (KnowledgeBaseA.tell kb myPos none per r).1.last_known_pacman = some p2 := by
  unfold KnowledgeBaseA.tell
  dsimp only
  have hf := applyPercepts_fields per { kb with my_pos := myPos }
  have hu := @usl_stay
    { KnowledgeBaseA.applyPercepts { kb with my_pos := myPos } per with
      pacman_pos_percept := none, see_pacman := false }
    r p2 rfl (hf.1.trans h1) (hf.2.1.trans h2)
    (fun hc => h3 (hf.2.2.2.symm.trans hc))
  exact ⟨hu.1.trans (hf.1.trans h1), hu.2.trans (hf.2.1.trans h2)⟩

theorem tellA_arrive (kb : KBA) (per : Percept) (r : PyRandom) {p2 : Coord}
    (h1 : kb.current_state = "PURSUING") (h2 : kb.last_known_pacman = some p2)
    (h3 : (KnowledgeBaseA.nbrs p2).filter
      (fun n => n ∉ (KnowledgeBaseA.applyPercepts
        { kb with my_pos := p2 } per).walls) ≠ []) :
    (KnowledgeBaseA.tell kb p2 none per r).1.current_state =
      "INVESTIGATING" := by
  unfold KnowledgeBaseA.tell
  dsimp only
  have hf := applyPercepts_fields per { kb with my_pos := p2 }
  refine usl_arrive rfl (hf.1.trans h1) ?_ ?_
  · rw [hf.2.1, hf.2.2.2]
    exact h2
  · rw [hf.2.2.2]
    exact h3

theorem runA_pursuing {ms : List KnowledgeBaseA.Tick} {s : KBA × PyRandom}
    {p2 : Coord} (hst : s.1.current_state = "PURSUING")
    (hl : s.1.last_known_pacman = some p2)
    (hm : ∀ t ∈ ms, t.pac = none ∧ t.my ≠ p2) :
    (KnowledgeBaseA.run s ms).1.current_state = "PURSUING" ∧
    (KnowledgeBaseA.run s ms).1.last_known_pacman = some p2 := by
  induction ms generalizing s with
  | nil => exact ⟨hst, hl⟩
  | cons t ms ih =>
    have ht := hm t (List.mem_cons_self t ms)
    have hstep := tellA_stay s.1 t.my t.per s.2 hst hl ht.2
    rw [← ht.1] at hstep
    exact @ih (KnowledgeBaseA.tell s.1 t.my t.pac t.per s.2) hstep.1 hstep.2
      (fun t' ht' => hm t' (List.mem_cons_of_mem _ ht'))

theorem runA_append (s : KBA × PyRandom) (a b : List KnowledgeBaseA.Tick) :
    KnowledgeBaseA.run s (a ++ b) =
      KnowledgeBaseA.run (KnowledgeBaseA.run s a) b := by
  unfold KnowledgeBaseA.run
  exact List.foldl_append _ _ _ _

/-- C7: starting from PATROL, with the target visible for two consecutive
ticks and then hidden: the state is CHASING from the first visible tick,
becomes PURSUING on the tick visibility is lost and stays PURSUING while
the agent has not reached the last known target position, and becomes
INVESTIGATING on the tick the agent's position equals the last known target
position, provided some cardinal neighbour of it is not a known wall. -/
theorem C7_pursuer_state_machine :
    ∀ (s0 : KBA × PyRandom) (t1 t2 : KnowledgeBaseA.Tick)
      (mid : List KnowledgeBaseA.Tick) (tk : KnowledgeBaseA.Tick)
      (p1 p2 : Coord),
      s0.1.current_state = "PATROLLING" →
      t1.pac = some p1 → t2.pac = some p2 →
      mid ≠ [] →
      (∀ t ∈ mid, t.pac = none ∧ t.my ≠ p2) →
      tk.pac = none → tk.my = p2 →
      ((KnowledgeBaseA.nbrs p2).filter
        (fun n => n ∉ (KnowledgeBaseA.applyPercepts
          { (KnowledgeBaseA.run s0 ([t1, t2] ++ mid)).1 with my_pos := p2 }
          tk.per).walls) ≠ []) →
      (KnowledgeBaseA.run s0 [t1]).1.current_state = "CHASING" ∧
      (KnowledgeBaseA.run s0 [t1, t2]).1.current_state = "CHASING" ∧
      (∀ i, 1 ≤ i → i ≤ mid.length →
        (KnowledgeBaseA.run s0 ([t1, t2] ++ mid.take i)).1.current_state =
          "PURSUING") ∧
      (KnowledgeBaseA.run s0 ([t1, t2] ++ mid ++ [tk])).1.current_state =
        "INVESTIGATING" := by
  intro s0 t1 t2 mid tk p1 p2 hstart h1 h2 hne hmid hk1 hk2 hopt
  have c1 : (KnowledgeBaseA.run s0 [t1]).1.current_state = "CHASING" := by
    show (KnowledgeBaseA.tell s0.1 t1.my t1.pac t1.per s0.2).1.current_state =
      "CHASING"
    rw [h1]
    exact (tellA_visible _ _ _ _ _).1
  have c2 : (KnowledgeBaseA.run s0 [t1, t2]).1.current_state = "CHASING" ∧
      (KnowledgeBaseA.run s0 [t1, t2]).1.last_known_pacman = some p2 := by
    show (KnowledgeBaseA.tell (KnowledgeBaseA.run s0 [t1]).1 t2.my t2.pac t2.per
        (KnowledgeBaseA.run s0 [t1]).2).1.current_state = "CHASING" ∧
      (KnowledgeBaseA.tell (KnowledgeBaseA.run s0 [t1]).1 t2.my t2.pac t2.per
        (KnowledgeBaseA.run s0 [t1]).2).1.last_known_pacman = some p2
    rw [h2]
    exact tellA_visible _ _ _ _ _
  obtain ⟨m0, ms, rfl⟩ : ∃ m0 ms, mid = m0 :: ms := by
    cases mid with
    | nil => exact absurd rfl hne
    | cons m0 ms => exact ⟨m0, ms, rfl⟩
  have hm0 := hmid m0 (List.mem_cons_self m0 ms)
  have hloss : ∀ msx : List KnowledgeBaseA.Tick,
      (∀ t ∈ msx, t.pac = none ∧ t.my ≠ p2) →
      (KnowledgeBaseA.run s0 ([t1, t2] ++ (m0 :: msx))).1.current_state =
        "PURSUING" ∧
      (KnowledgeBaseA.run s0 ([t1, t2] ++ (m0 :: msx))).1.last_known_pacman =
        some p2 := by
    intro msx hmsx
    rw [runA_append]
    show (KnowledgeBaseA.run (KnowledgeBaseA.tell
        (KnowledgeBaseA.run s0 [t1, t2]).1 m0.my m0.pac m0.per
        (KnowledgeBaseA.run s0 [t1, t2]).2) msx).1.current_state = "PURSUING" ∧
      (KnowledgeBaseA.run (KnowledgeBaseA.tell
        (KnowledgeBaseA.run s0 [t1, t2]).1 m0.my m0.pac m0.per
        (KnowledgeBaseA.run s0 [t1, t2]).2) msx).1.last_known_pacman = some p2
    rw [hm0.1]
    have hl := tellA_lost (KnowledgeBaseA.run s0 [t1, t2]).1 m0.my m0.per
      (KnowledgeBaseA.run s0 [t1, t2]).2 c2.1
    exact runA_pursuing hl.1 (hl.2.trans c2.2) hmsx
  refine ⟨c1, c2.1, ?_, ?_⟩
  · intro i hi1 hi2
    obtain ⟨j, rfl⟩ : ∃ j, i = j + 1 := ⟨i - 1, by omega⟩
    rw [List.take_succ_cons]
    exact (hloss (ms.take j)
      (fun t ht => hmid t (List.mem_cons_of_mem _ (List.take_subset j ms ht)))).1
  · rw [runA_append]
    have hpre := hloss ms (fun t ht => hmid t (List.mem_cons_of_mem _ ht))
    show (KnowledgeBaseA.tell (KnowledgeBaseA.run s0 ([t1, t2] ++ m0 :: ms)).1
      tk.my tk.pac tk.per
      (KnowledgeBaseA.run s0 ([t1, t2] ++ m0 :: ms)).2).1.current_state =
      "INVESTIGATING"
    rw [hk1, hk2]
    exact tellA_arrive _ tk.per _ hpre.1 hpre.2 hopt

/-- C7 witness: the scenario theorem evaluated on the concrete trace. -/
theorem C7_pursuer_state_machine_witness :
    (KnowledgeBaseA.run c7s0 [c7t1]).1.current_state = "CHASING" ∧
    (KnowledgeBaseA.run c7s0 [c7t1, c7t2]).1.current_state = "CHASING" ∧
    (KnowledgeBaseA.run c7s0 ([c7t1, c7t2] ++ c7mid.take 1)).1.current_state =
      "PURSUING" ∧
    (KnowledgeBaseA.run c7s0 ([c7t1, c7t2] ++ c7mid ++ [c7tk])).1.current_state =
      "INVESTIGATING" := by
  have h := C7_pursuer_state_machine c7s0 c7t1 c7t2 c7mid c7tk (5, 5) (5, 5)
    (by decide) rfl rfl (by decide) (by decide) rfl rfl (by decide)
  exact ⟨h.1, h.2.1, h.2.2.1 1 (by decide) (by decide), h.2.2.2⟩

/-! ## 19. Claim C9: randomness is process-global in the ghost KBs -/

/-- C9 counterexample: with an *identical* KB state and identical percept
history, ghost B's fallback move depends on the position of the shared
process-global generator — exactly what changes when another agent draws
first — so the choice is not drawn from an agent-local seedable generator. -/
theorem C9_global_rng_interference :
    (KnowledgeBaseB.get_random_optimistic_move kbB_fresh ⟨fun n => n, 0⟩).1 =
      "UP" ∧
    (KnowledgeBaseB.get_random_optimistic_move kbB_fresh ⟨fun n => n, 1⟩).1 =
      "DOWN" := by
  exact ⟨by decide, by decide⟩

/-- C9 (amended): the ghost KBs draw their random choices from the
module-level `random` generator shared by the whole process: ghost B's
fallback move is determined by the shared generator state, and two runs
with the same agent-visible inputs produce different actions whenever the
global states select different indices (as they do when other agents have
consumed draws in between). -/
theorem C9_ghost_rng_is_global :
    ∀ (kb : KBB) (r1 r2 : PyRandom) (h : KnowledgeBaseB.possible_moves kb ≠ []),
      r1.stream r1.k % (KnowledgeBaseB.possible_moves kb).length ≠
        r2.stream r2.k % (KnowledgeBaseB.possible_moves kb).length →
      (KnowledgeBaseB.possible_moves kb).Nodup →
      (KnowledgeBaseB.get_random_optimistic_move kb r1).1 ≠
        (KnowledgeBaseB.get_random_optimistic_move kb r2).1 := by
  intro kb r1 r2 h hneq hnd
  unfold KnowledgeBaseB.get_random_optimistic_move
  rw [dif_neg h, dif_neg h]
  unfold pyChoice
  dsimp only
  intro hc
  have := (List.Nodup.get_inj_iff hnd).mp hc
  exact hneq (congrArg Fin.val this)

/-- C9 witness: the dependence evaluated at ghost B's first-tick state with
the global cursor at 0 and at 1. -/
theorem C9_ghost_rng_is_global_witness :
    (KnowledgeBaseB.get_random_optimistic_move kbB_fresh ⟨fun n => n, 0⟩).1 ≠
      (KnowledgeBaseB.get_random_optimistic_move kbB_fresh ⟨fun n => n, 1⟩).1 :=
  C9_ghost_rng_is_global kbB_fresh ⟨fun n => n, 0⟩ ⟨fun n => n, 1⟩
    (by decide) (by decide) (by decide)

/-! ## 20. Claim C8: oscillation escape -/

theorem isSome_of_isNone_false {α : Type} {o : Option α}
    (h : o.isNone = false) : o.isSome = true := by
  cases o with
  | none => cases h
  | some v => rfl

theorem unify_some_name {q f : FolPred} (h : (unify q f).isSome) :
    q.name = f.name := by
  unfold unify at h
  by_cases hn : q.name = f.name
  · exact hn
  · rw [if_neg hn] at h
    cases h

theorem filterMap_filter_eq {α β : Type} (g : α → Option β) (p : α → Bool)
    (l : List α) (h : ∀ a, p a = false → g a = none) :
    (l.filter p).filterMap g = l.filterMap g := by
  induction l with
  | nil => rfl
  | cons a l ih =>
    by_cases hp : p a = true
    · rw [List.filter_cons_of_pos hp, List.filterMap_cons, List.filterMap_cons]
      cases g a <;> rw [ih]
    · rw [List.filter_cons_of_neg hp, List.filterMap_cons,
        h a (Bool.not_eq_true _ ▸ Bool.of_not_eq_true hp), ih]

theorem gu_retract_of_ne_name {fs : Facts} {q t : FolPred}
    (h : t.name ≠ q.name) :
    get_unifications (retractMatching fs t) q = get_unifications fs q := by
  unfold get_unifications retractMatching
  refine filterMap_filter_eq _ _ _ ?_
  intro f hp
  have hs : (unify t f).isSome := isSome_of_isNone_false hp
  have hname := unify_some_name hs
  rw [if_neg (fun hc => h (hname.trans hc))]

theorem queryExists_retract_of_ne_name {fs : Facts} {q t : FolPred}
    (h : t.name ≠ q.name) :
    queryExists (retractMatching fs t) q = queryExists fs q := by
  unfold queryExists
  rw [gu_retract_of_ne_name h]

theorem qasc_retract_esc (fs : Facts) :
    KnowledgeBaseC.query_all_safe_coords
      (retractMatching fs KnowledgeBaseC.escTmpl) =
      KnowledgeBaseC.query_all_safe_coords fs := by
  unfold KnowledgeBaseC.query_all_safe_coords retractMatching
  refine filterMap_filter_eq _ _ _ ?_
  intro f hp
  have hs : (unify KnowledgeBaseC.escTmpl f).isSome := isSome_of_isNone_false hp
  have hname := unify_some_name hs
  match f with
  | ⟨.EscapeState, _⟩ => rfl
  | ⟨.LearnedSafe, _⟩ => cases hname
  | ⟨.Position, _⟩ => rfl
  | ⟨.DirtAt, _⟩ => rfl
  | ⟨.Blocked, _⟩ => rfl
  | ⟨.LearnedWall, _⟩ => rfl
  | ⟨.PacmanPos, _⟩ => rfl
  | ⟨.VisitedAtTime, _⟩ => rfl
  | ⟨.LastPos, _⟩ => rfl
  | ⟨.UnreachableGoal, _⟩ => rfl
  | ⟨.PacmanVector, _⟩ => rfl
  | ⟨.GhostPos, _⟩ => rfl

theorem qng_retract_esc (fs : Facts) (myPos : Coord) (rd : Int) :
    KnowledgeBaseC.query_nearby_ghosts
      (retractMatching fs KnowledgeBaseC.escTmpl) myPos rd =
      KnowledgeBaseC.query_nearby_ghosts fs myPos rd := by
  unfold KnowledgeBaseC.query_nearby_ghosts retractMatching
  refine filterMap_filter_eq _ _ _ ?_
  intro f hp
  have hs : (unify KnowledgeBaseC.escTmpl f).isSome := isSome_of_isNone_false hp
  have hname := unify_some_name hs
  match f with
  | ⟨.EscapeState, _⟩ => rfl
  | ⟨.GhostPos, _⟩ => cases hname
  | ⟨.LearnedSafe, _⟩ => rfl
  | ⟨.Position, _⟩ => rfl
  | ⟨.DirtAt, _⟩ => rfl
  | ⟨.Blocked, _⟩ => rfl
  | ⟨.LearnedWall, _⟩ => rfl
  | ⟨.PacmanPos, _⟩ => rfl
  | ⟨.VisitedAtTime, _⟩ => rfl
  | ⟨.LastPos, _⟩ => rfl
  | ⟨.UnreachableGoal, _⟩ => rfl
  | ⟨.PacmanVector, _⟩ => rfl

theorem manh_nonneg (a b : Coord) : 0 ≤ KnowledgeBaseC.manh a b :=
  add_nonneg (abs_nonneg _) (abs_nonneg _)

theorem farthest_fold (myPos : Coord) (Q : Coord → Prop) :
    ∀ (l : List Coord) (b0 : Option Coord) (d0 : Int),
      (∀ c, b0 = some c → d0 = KnowledgeBaseC.manh myPos c ∧ Q c) →
      (∀ t ∈ l, Q t) →
      (∀ c, (l.foldl (fun b t =>
          if KnowledgeBaseC.manh myPos t > b.2 then
            (some t, KnowledgeBaseC.manh myPos t) else b) (b0, d0)).1 = some c →
        Q c ∧ (l.foldl (fun b t =>
          if KnowledgeBaseC.manh myPos t > b.2 then
            (some t, KnowledgeBaseC.manh myPos t) else b) (b0, d0)).2 =
          KnowledgeBaseC.manh myPos c) ∧
      (∀ t ∈ l, KnowledgeBaseC.manh myPos t ≤ (l.foldl (fun b t =>
          if KnowledgeBaseC.manh myPos t > b.2 then
            (some t, KnowledgeBaseC.manh myPos t) else b) (b0, d0)).2) ∧
      d0 ≤ (l.foldl (fun b t =>
          if KnowledgeBaseC.manh myPos t > b.2 then
            (some t, KnowledgeBaseC.manh myPos t) else b) (b0, d0)).2 ∧
      (∀ c, b0 = some c → ∃ c', (l.foldl (fun b t =>
          if KnowledgeBaseC.manh myPos t > b.2 then
            (some t, KnowledgeBaseC.manh myPos t) else b) (b0, d0)).1 = some c') := by
  intro l
  induction l with
  | nil =>
    intro b0 d0 hb _
    refine ⟨?_, ?_, le_refl _, ?_⟩
    · intro c hc
      exact ⟨(hb c hc).2, (hb c hc).1⟩
    · intro t ht
      cases ht
    · intro c hc
      exact ⟨c, hc⟩
  | cons t l ih =>
    intro b0 d0 hb hQ
    rw [List.foldl_cons]
    by_cases hgt : KnowledgeBaseC.manh myPos t > d0
    · rw [if_pos hgt]
      have hb' : ∀ c, (some t : Option Coord) = some c →
          KnowledgeBaseC.manh myPos t = KnowledgeBaseC.manh myPos c ∧ Q c := by
        intro c hc
        cases hc
        exact ⟨rfl, hQ t (List.mem_cons_self t l)⟩
      obtain ⟨i1, i2, i3, i4⟩ := ih (some t) (KnowledgeBaseC.manh myPos t) hb'
        (fun t' ht' => hQ t' (List.mem_cons_of_mem _ ht'))
      refine ⟨i1, ?_, le_trans (le_of_lt hgt) i3, fun c _ => i4 t rfl⟩
      intro t' ht'
      rcases List.mem_cons.mp ht' with rfl | ht''
      · exact i3
      · exact i2 t' ht''
    · rw [if_neg hgt]
      obtain ⟨i1, i2, i3, i4⟩ := ih b0 d0 hb
        (fun t' ht' => hQ t' (List.mem_cons_of_mem _ ht'))
      refine ⟨i1, ?_, i3, i4⟩
      intro t' ht'
      rcases List.mem_cons.mp ht' with rfl | ht''
      · exact le_trans (le_of_not_lt hgt) i3
      · exact i2 t' ht''

/-- `_find_farthest_safe_tile` returns a safe tile at maximal Manhattan
distance whenever any safe tile is known. -/
theorem farthest_spec {fs : Facts} {myPos : Coord}
    (h : KnowledgeBaseC.query_all_safe_coords fs ≠ []) :
    ∃ far, KnowledgeBaseC.find_farthest_safe_tile fs myPos = some far ∧
      far ∈ KnowledgeBaseC.query_all_safe_coords fs ∧
      ∀ t ∈ KnowledgeBaseC.query_all_safe_coords fs,
        KnowledgeBaseC.manh myPos t ≤ KnowledgeBaseC.manh myPos far := by
  unfold KnowledgeBaseC.find_farthest_safe_tile
  rw [if_neg h]
  match hl : KnowledgeBaseC.query_all_safe_coords fs with
  | [] => exact absurd hl h
  | c0 :: rest =>
    rw [List.foldl_cons]
    have hstep : (if KnowledgeBaseC.manh myPos c0 > (-1 : Int) then
        (some c0, KnowledgeBaseC.manh myPos c0) else ((none : Option Coord), (-1 : Int))) =
        (some c0, KnowledgeBaseC.manh myPos c0) := by
      rw [if_pos (lt_of_lt_of_le (by norm_num) (manh_nonneg myPos c0))]
    rw [hstep]
    have hb' : ∀ c, (some c0 : Option Coord) = some c →
        KnowledgeBaseC.manh myPos c0 = KnowledgeBaseC.manh myPos c ∧
          c ∈ c0 :: rest := by
      intro c hc
      cases hc
      exact ⟨rfl, List.mem_cons_self c0 rest⟩
    obtain ⟨i1, i2, i3, i4⟩ := farthest_fold myPos (fun c => c ∈ c0 :: rest) rest
      (some c0) (KnowledgeBaseC.manh myPos c0) hb'
      (fun t ht => List.mem_cons_of_mem _ ht)
    obtain ⟨far, hfar⟩ := i4 c0 rfl
    refine ⟨far, hfar, (i1 far hfar).1, ?_⟩
    intro t ht
    rcases List.mem_cons.mp ht with rfl | ht'
    · exact i3.trans_eq (i1 far hfar).2
    · exact (i2 t ht').trans_eq (i1 far hfar).2

theorem qng_assert_escape (fs : Facts) (p : Coord) (ts : Int) (my : Coord)
    (rd : Int) :
    KnowledgeBaseC.query_nearby_ghosts
      (KnowledgeBaseC.assert_fact fs (escapeP p ts)) my rd =
      KnowledgeBaseC.query_nearby_ghosts fs my rd := by
  unfold KnowledgeBaseC.assert_fact
  rw [if_pos (show (escapeP p ts).is_ground = true from rfl)]
  unfold insertFact
  split
  · rfl
  · unfold KnowledgeBaseC.query_nearby_ghosts
    rw [List.filterMap_append]
    simp [escapeP, List.filterMap_cons]

theorem escTmpl_name_ne_visitedP (p : Coord) (t : Int) :
    KnowledgeBaseC.escTmpl.name ≠ (visitedP p t).name := by
  simp [KnowledgeBaseC.escTmpl, visitedP]

theorem qae_none {kb : KBC}
    (hesc : ∀ f ∈ kb.facts, f.name = .EscapeState →
      ∃ x y t : Int, f.args = [constI x, constI y, constI t] ∧
        kb.current_time - t > 20) :
    (KnowledgeBaseC.query_active_escape kb 20).1 = none ∧
    ((KnowledgeBaseC.query_active_escape kb 20).2 = kb.facts ∨
     (KnowledgeBaseC.query_active_escape kb 20).2 =
       retractMatching kb.facts KnowledgeBaseC.escTmpl) := by
  unfold KnowledgeBaseC.query_active_escape
  cases hfind : kb.facts.find? (fun f =>
      decide (f.name = .EscapeState) && (unify KnowledgeBaseC.escTmpl f).isSome) with
  | none => exact ⟨rfl, Or.inl rfl⟩
  | some f =>
    have hmem := List.mem_of_find?_eq_some hfind
    have hpred := List.find?_some hfind
    rw [Bool.and_eq_true, decide_eq_true_eq] at hpred
    obtain ⟨x, y, t, hargs, hexp⟩ := hesc f hmem hpred.1
    obtain ⟨nm, args⟩ := f
    subst hargs
    cases hpred.1
    dsimp only [constI]
    rw [if_pos hexp]
    exact ⟨rfl, Or.inr rfl⟩

/-- C8 (amended): on a tick where the KB's visit history shows the agent at
its current tile 2 and 4 ticks ago, every stored escape commitment (if any)
is expired, at least one safe tile is known, **and no other tracked agent
is within the repulsion distance**, the goal cascade asserts an
`EscapeState` fact and selects a known-safe tile of maximal Manhattan
distance as the goal of that tick. -/
theorem C8_oscillation_escape :
    ∀ kb : KBC,
      (∀ f ∈ kb.facts, f.name = .EscapeState →
        ∃ x y t : Int, f.args = [constI x, constI y, constI t] ∧
          kb.current_time - t > 20) →
      KnowledgeBaseC.infer_oscillation kb.facts kb.my_pos kb.current_time = true →
      KnowledgeBaseC.query_all_safe_coords kb.facts ≠ [] →
      KnowledgeBaseC.query_nearby_ghosts kb.facts kb.my_pos 5 = [] →
      ∃ far : Coord,
        (KnowledgeBaseC.askGoalCascade kb).1 = some far ∧
        (KnowledgeBaseC.askGoalCascade kb).2.2 = false ∧
        far ∈ KnowledgeBaseC.query_all_safe_coords kb.facts ∧
        (∀ t ∈ KnowledgeBaseC.query_all_safe_coords kb.facts,
          KnowledgeBaseC.manh kb.my_pos t ≤ KnowledgeBaseC.manh kb.my_pos far) ∧
        escapeP far kb.current_time ∈ (KnowledgeBaseC.askGoalCascade kb).2.1 := by
  intro kb hesc hosc hsafe hng
  obtain ⟨hq1, hq2⟩ := qae_none hesc
  have hosc0 : KnowledgeBaseC.infer_oscillation
      (KnowledgeBaseC.query_active_escape kb 20).2 kb.my_pos kb.current_time =
      true := by
    rcases hq2 with h2 | h2
    · rw [h2]
      exact hosc
    · rw [h2]
      unfold KnowledgeBaseC.infer_oscillation at hosc ⊢
      rw [queryExists_retract_of_ne_name (escTmpl_name_ne_visitedP _ _),
        queryExists_retract_of_ne_name (escTmpl_name_ne_visitedP _ _)]
      exact hosc
  have hsafe0 : KnowledgeBaseC.query_all_safe_coords
      (KnowledgeBaseC.query_active_escape kb 20).2 =
      KnowledgeBaseC.query_all_safe_coords kb.facts := by
    rcases hq2 with h2 | h2
    · rw [h2]
    · rw [h2, qasc_retract_esc]
  have hng0 : KnowledgeBaseC.query_nearby_ghosts
      (KnowledgeBaseC.query_active_escape kb 20).2 kb.my_pos 5 = [] := by
    rcases hq2 with h2 | h2
    · rw [h2]
      exact hng
    · rw [h2, qng_retract_esc]
      exact hng
  obtain ⟨far, hfar, hfarmem, hfarmax⟩ :=
    @farthest_spec (KnowledgeBaseC.query_active_escape kb 20).2
      kb.my_pos (by rw [hsafe0]; exact hsafe)
  have hcas : KnowledgeBaseC.askGoalCascade kb =
      (some far, KnowledgeBaseC.assert_fact
        (KnowledgeBaseC.query_active_escape kb 20).2
        (escapeP far kb.current_time), false) := by
    unfold KnowledgeBaseC.askGoalCascade
    dsimp only
    rw [hq1]
    dsimp only
    rw [if_pos ⟨rfl, hosc0⟩, hfar]
    dsimp only
    unfold KnowledgeBaseC.askGoalTail
    dsimp only
    rw [qng_assert_escape, hng0, if_pos rfl,
      if_neg (Option.some_ne_none far),
      if_neg (Option.some_ne_none far),
      if_neg (Option.some_ne_none far),
      if_neg (Option.some_ne_none far),
      if_neg (Option.some_ne_none far)]
  refine ⟨far, by rw [hcas], by rw [hcas], ?_, ?_, ?_⟩
  · rw [← hsafe0]
    exact hfarmem
  · intro t ht
    exact hfarmax t (by rw [hsafe0]; exact ht)
  · rw [hcas]
    show escapeP far kb.current_time ∈
      KnowledgeBaseC.assert_fact (KnowledgeBaseC.query_active_escape kb 20).2
        (escapeP far kb.current_time)
    unfold KnowledgeBaseC.assert_fact
    rw [if_pos (show (escapeP far kb.current_time).is_ground = true from rfl)]
    exact mem_insertFact.mpr (Or.inr rfl)

/-- C8 counterexample: in `kbOsc` the oscillation condition holds, no
`EscapeState` fact is stored, and `(10, 0)` is a known-safe tile strictly
farther than `(0, 0)`, yet the cascade's goal for the tick is `(0, 0)`:
the priority-1 ghost-repulsion goal is computed whenever another ghost is
nearby and overrides the freshly chosen escape goal, so the farthest safe
tile is not selected. -/
theorem C8_repulsion_overrides_escape_goal :
    (∀ f ∈ kbOsc.facts, f.name ≠ .EscapeState) ∧
    KnowledgeBaseC.infer_oscillation kbOsc.facts kbOsc.my_pos
      kbOsc.current_time = true ∧
    (10, 0) ∈ KnowledgeBaseC.query_all_safe_coords kbOsc.facts ∧
    KnowledgeBaseC.manh kbOsc.my_pos (0, 0) <
      KnowledgeBaseC.manh kbOsc.my_pos (10, 0) ∧
    (KnowledgeBaseC.askGoalCascade kbOsc).1 = some (0, 0) := by
  decide

theorem C8_oscillation_escape_witness :
    ∃ far : Coord,
      (KnowledgeBaseC.askGoalCascade kbOscNG).1 = some far ∧
      (KnowledgeBaseC.askGoalCascade kbOscNG).2.2 = false ∧
      far ∈ KnowledgeBaseC.query_all_safe_coords kbOscNG.facts ∧
      (∀ t ∈ KnowledgeBaseC.query_all_safe_coords kbOscNG.facts,
        KnowledgeBaseC.manh kbOscNG.my_pos t ≤
          KnowledgeBaseC.manh kbOscNG.my_pos far) ∧
      escapeP far kbOscNG.current_time ∈
        (KnowledgeBaseC.askGoalCascade kbOscNG).2.1 :=
  C8_oscillation_escape kbOscNG
    (by
      intro f hf he
      simp only [kbOscNG, List.mem_cons, List.not_mem_nil, or_false] at hf
      rcases hf with rfl | rfl | rfl | rfl <;> exact absurd he (by decide))
    (by decide) (by decide) (by decide)

-- ### small helpers

theorem head_append_left {α} {l l' : List α} {a : α} (h : l.head? = some a) :
    (l ++ l').head? = some a := by
  cases l with
  | nil => cases h
  | cons b t => exact h

theorem pairwise_le_of_const {l : List Nat} {c : Nat} (h : ∀ x ∈ l, x = c) :
    l.Pairwise (· ≤ ·) := by
  induction l with
  | nil => exact List.Pairwise.nil
  | cons a t ih =>
    refine List.Pairwise.cons ?_ (ih fun x hx => h x (List.mem_cons_of_mem _ hx))
    intro b hb
    rw [h a (List.mem_cons_self _ _), h b (List.mem_cons_of_mem _ hb)]

theorem nodup_length_le_dedup {α} [DecidableEq α] {l l' : List α}
    (hnd : l.Nodup) (hsub : l ⊆ l') : l.length ≤ l'.dedup.length := by
  calc l.length = l.toFinset.card := (List.toFinset_card_of_nodup hnd).symm
    _ ≤ l'.toFinset.card := Finset.card_le_card
        (fun a ha => List.mem_toFinset.mpr (hsub (List.mem_toFinset.mp ha)))
    _ = l'.dedup.length := List.card_toFinset l'

-- ### scan lemmas

theorem bfsScan_mem_goal (goal : Coord) (safe path : List Coord) :
    ∀ ns vis acc, goal ∈ ns →
      (bfsScan goal safe path ns vis acc).1 = some (path ++ [goal]) := by
  intro ns
  induction ns with
  | nil => intro vis acc h; cases h
  | cons n ns ih =>
    intro vis acc h
    simp only [bfsScan]
    by_cases hg : n = goal
    · subst hg; rw [if_pos rfl]
    · rw [if_neg hg]
      have hmem : goal ∈ ns := by
        rcases List.mem_cons.mp h with h' | h'
        · exact absurd h'.symm hg
        · exact h'
      split
      · exact ih _ _ hmem
      · exact ih _ _ hmem

theorem bfsScan_none_spec (goal : Coord) (safe path : List Coord) :
    ∀ ns vis acc, goal ∉ ns →
      ∃ extra,
        bfsScan goal safe path ns vis acc =
          (none, (extra.map Prod.fst).reverse ++ vis, acc ++ extra) ∧
        (∀ e ∈ extra, e.1 ∈ ns ∧ e.1 ∈ safe ∧ e.1 ∉ vis ∧ e.2 = path ++ [e.1]) ∧
        (vis.Nodup → ((extra.map Prod.fst).reverse ++ vis).Nodup) ∧
        (∀ m ∈ ns, m ∈ safe → m ∈ extra.map Prod.fst ∨ m ∈ vis) := by
  intro ns
  induction ns with
  | nil =>
    intro vis acc _
    refine ⟨[], by simp [bfsScan], by simp, by simp, by simp⟩
  | cons n ns ih =>
    intro vis acc h
    have hgn : ¬ n = goal := fun hc => h (hc ▸ List.mem_cons_self n ns)
    have hgs : goal ∉ ns := fun hc => h (List.mem_cons_of_mem _ hc)
    by_cases hin : n ∈ safe ∧ n ∉ vis
    · obtain ⟨extra, hE, hP, hN, hM⟩ := ih (n :: vis) (acc ++ [(n, path ++ [n])]) hgs
      refine ⟨(n, path ++ [n]) :: extra, ?_, ?_, ?_, ?_⟩
      · simp only [bfsScan]
        rw [if_neg hgn, if_pos hin, hE]
        simp [List.append_assoc]
      · intro e he
        rcases List.mem_cons.mp he with rfl | he'
        · exact ⟨List.mem_cons_self _ _, hin.1, hin.2, rfl⟩
        · obtain ⟨h1, h2, h3, h4⟩ := hP e he'
          exact ⟨List.mem_cons_of_mem _ h1, h2,
            fun hc => h3 (List.mem_cons_of_mem _ hc), h4⟩
      · intro hnd
        have hres := hN (List.nodup_cons.mpr ⟨hin.2, hnd⟩)
        simp only [List.map_cons, List.reverse_cons, List.append_assoc]
        exact hres
      · intro m hm hms
        rcases List.mem_cons.mp hm with rfl | hm'
        · exact Or.inl (List.mem_cons_self _ _)
        · rcases hM m hm' hms with h1 | h1
          · exact Or.inl (List.mem_cons_of_mem _ h1)
          · rcases List.mem_cons.mp h1 with rfl | h2
            · exact Or.inl (List.mem_cons_self _ _)
            · exact Or.inr h2
    · obtain ⟨extra, hE, hP, hN, hM⟩ := ih vis acc hgs
      refine ⟨extra, ?_, ?_, hN, ?_⟩
      · simp only [bfsScan]
        rw [if_neg hgn, if_neg hin]
        exact hE
      · intro e he
        obtain ⟨h1, h2, h3, h4⟩ := hP e he
        exact ⟨List.mem_cons_of_mem _ h1, h2, h3, h4⟩
      · intro m hm hms
        rcases List.mem_cons.mp hm with rfl | hm'
        · rcases Decidable.em (m ∈ vis) with hv | hv
          · exact Or.inr hv
          · exact absurd ⟨hms, hv⟩ hin
        · exact hM m hm' hms

-- ### frontier-crossing and head-minimality

theorem reach_cross (safe : List Coord) (start : Coord)
    (q : List (Coord × List Coord)) (vis : List Coord)
    (hstart : start ∈ vis)
    (hfull : ∀ u ∈ vis, u ∉ q.map Prod.fst →
      ∀ w ∈ get_neighbors u, w ∈ safe → w ∈ vis) :
    ∀ v n, Reach safe start v n → v ∉ vis →
      ∃ e ∈ q, ∃ m, Reach safe start e.1 m ∧ m + 1 ≤ n := by
  intro v n hr
  induction hr with
  | base => intro hv; exact absurd hstart hv
  | step u v n hru hadj hsf ih =>
    intro hv
    by_cases hu : u ∈ vis
    · by_cases huq : u ∈ q.map Prod.fst
      · obtain ⟨e, he, he1⟩ := List.mem_map.mp huq
        exact ⟨e, he, n, he1 ▸ hru, le_refl _⟩
      · exact absurd (hfull u hu huq v hadj hsf) hv
    · obtain ⟨e, he, m, hm, hle⟩ := ih hu
      exact ⟨e, he, m, hm, hle.trans (Nat.le_succ _)⟩

theorem head_min_reach (start : Coord) (safe : List Coord) (cur : Coord)
    (path : List Coord) (rest : List (Coord × List Coord)) (vis : List Coord)
    (hst : start ∈ vis)
    (hsort : (((cur, path) :: rest).map (fun e => e.2.length)).Pairwise (· ≤ ·))
    (hmin : ∀ e ∈ (cur, path) :: rest, ∀ n, Reach safe start e.1 n →
      e.2.length ≤ n + 1)
    (hfull : ∀ u ∈ vis, u ∉ ((cur, path) :: rest).map Prod.fst →
      ∀ w ∈ get_neighbors u, w ∈ safe → w ∈ vis) :
    (∀ v n, Reach safe start v n → v ∉ vis → path.length ≤ n) ∧
    (∀ v n, Reach safe start v n → v ∈ ((cur, path) :: rest).map Prod.fst →
      path.length ≤ n + 1) := by
  have hhead : ∀ e ∈ (cur, path) :: rest, path.length ≤ e.2.length := by
    intro e he
    rcases List.mem_cons.mp he with rfl | he'
    · exact le_refl _
    · exact (List.pairwise_cons.mp hsort).1 _
        (List.mem_map_of_mem (fun e => e.2.length) he')
  constructor
  · intro v n hr hv
    obtain ⟨e, he, m, hm, hle⟩ := reach_cross safe start _ vis hst hfull v n hr hv
    calc path.length ≤ e.2.length := hhead e he
      _ ≤ m + 1 := hmin e he m hm
      _ ≤ n := hle
  · intro v n hr hvq
    obtain ⟨e, he, he1⟩ := List.mem_map.mp hvq
    calc path.length ≤ e.2.length := hhead e he
      _ ≤ n + 1 := hmin e he n (he1 ▸ hr)

-- ### queue-entry extension

theorem qentry_extend (start : Coord) (safe : List Coord) {cur v : Coord}
    {path : List Coord} (hE : QEntryOK start safe (cur, path))
    (hadj : v ∈ get_neighbors cur) (hsf : v ∈ safe) :
    QEntryOK start safe (v, path ++ [v]) := by
  obtain ⟨hh, hl, hc, hs⟩ := hE
  refine ⟨head_append_left hh, List.getLast?_concat path, ?_, ?_⟩
  · refine List.chain'_append.mpr ⟨hc, List.chain'_singleton v, ?_⟩
    intro x hx y hy
    have hx' : x = cur := by
      rw [hl] at hx
      exact (Option.mem_some_iff.mp hx).symm
    have hy' : y = v := (Option.mem_some_iff.mp hy).symm
    rw [hx', hy']
    exact hadj
  · cases path with
    | nil => cases hh
    | cons a t =>
      intro x hx
      rcases List.mem_append.mp hx with hx' | hx'
      · exact hs x hx'
      · rw [List.mem_singleton.mp hx']
        exact hsf

-- ### walks from valid chains

theorem chain_reach (safe : List Coord) (start : Coord) :
    ∀ l : List Coord, ∀ v : Coord, l.head? = some start →
      l.getLast? = some v → l.Chain' (fun a b => b ∈ get_neighbors a) →
      (∀ x ∈ l.drop 1, x ∈ safe) → Reach safe start v (l.length - 1) := by
  intro l
  induction l using List.reverseRecOn with
  | nil => intro v h; cases h
  | append_singleton l a ih =>
    intro v hh hl hc hs
    have hv : v = a := by
      rw [List.getLast?_concat] at hl
      exact (Option.some_inj.mp hl).symm
    subst hv
    cases l with
    | nil =>
      have : v = start := Option.some_inj.mp hh
      subst this
      exact Reach.base
    | cons b t =>
      have hh' : b = start := by
        have : ((b :: t) ++ [v]).head? = some b := rfl
        rw [this] at hh
        exact Option.some_inj.mp hh
      subst hh'
      obtain ⟨u, hu⟩ : ∃ u, (b :: t).getLast? = some u :=
        ⟨(b :: t).getLast (by simp), List.getLast?_eq_getLast _ (by simp)⟩
      obtain ⟨hc1, _, hc3⟩ := List.chain'_append.mp hc
      have hadj : v ∈ get_neighbors u := by
        refine hc3 u ?_ v rfl
        rw [hu]; rfl
      have hvsafe : v ∈ safe := by
        refine hs v ?_
        have : ((b :: t) ++ [v]).drop 1 = t ++ [v] := rfl
        rw [this]
        exact List.mem_append.mpr (Or.inr (List.mem_singleton.mpr rfl))
      have hsub : ∀ x ∈ (b :: t).drop 1, x ∈ safe := by
        intro x hx
        refine hs x ?_
        have : ((b :: t) ++ [v]).drop 1 = t ++ [v] := rfl
        rw [this]
        exact List.mem_append.mpr (Or.inl hx)
      have hre := ih u rfl hu hc1 hsub
      have hlen : (b :: t).length - 1 + 1 = ((b :: t) ++ [v]).length - 1 := by
        simp
      have := Reach.step u v _ hre hadj hvsafe
      rw [hlen] at this
      exact this

-- ### the worklist loop

theorem bfsAux_spec (start goal : Coord) (safe : List Coord) :
    ∀ (fuel : Nat) (q : List (Coord × List Coord)) (vis : List Coord),
      (∀ e ∈ q, QEntryOK start safe e) →
      vis.Nodup →
      (∀ v ∈ vis, v ∈ start :: safe) →
      (∀ e ∈ q, e.1 ∈ vis) →
      start ∈ vis →
      (q.map (fun e => e.2.length)).Pairwise (· ≤ ·) →
      (∀ e ∈ q, ∀ e' ∈ q, e.2.length ≤ e'.2.length + 1) →
      (∀ e ∈ q, ∀ n, Reach safe start e.1 n → e.2.length ≤ n + 1) →
      (∀ u ∈ vis, u ∉ q.map Prod.fst → goal ∉ get_neighbors u) →
      (∀ u ∈ vis, u ∉ q.map Prod.fst →
        ∀ w ∈ get_neighbors u, w ∈ safe → w ∈ vis) →
      q.length + ((start :: safe).dedup).length ≤ fuel + vis.length →
      (∀ p, bfsAux goal safe fuel q vis = some p →
        (p.head? = some start ∧ p.getLast? = some goal ∧
         p.Chain' (fun a b => b ∈ get_neighbors a) ∧
         ∀ x ∈ (p.drop 1).dropLast, x ∈ safe) ∧
        ∀ v n, Reach safe start v n → goal ∈ get_neighbors v →
          p.length ≤ n + 2) ∧
      (bfsAux goal safe fuel q vis = none →
        ∀ v n, Reach safe start v n → goal ∉ get_neighbors v) := by
  intro fuel
  induction fuel with
  | zero =>
    intro q vis hQ hnd hvs hqv hst hsort hspread hmin hproc hfull hfuel
    have hvd : vis.length ≤ ((start :: safe).dedup).length :=
      nodup_length_le_dedup hnd hvs
    have hq0 : q = [] := List.length_eq_zero.mp (by omega)
    subst hq0
    refine ⟨fun p hp => Option.noConfusion hp, fun _ v n hr hadj => ?_⟩
    by_cases hv : v ∈ vis
    · exact hproc v hv (by simp) hadj
    · obtain ⟨e, he, -⟩ :=
        reach_cross safe start [] vis hst hfull v n hr hv
      exact absurd he (List.not_mem_nil e)
  | succ fuel ih =>
    intro q vis hQ hnd hvs hqv hst hsort hspread hmin hproc hfull hfuel
    match q, hQ, hqv, hsort, hspread, hmin, hproc, hfull, hfuel with
    | [], hQ, hqv, hsort, hspread, hmin, hproc, hfull, hfuel =>
      refine ⟨fun p hp => Option.noConfusion hp, fun _ v n hr hadj => ?_⟩
      by_cases hv : v ∈ vis
      · exact hproc v hv (by simp) hadj
      · obtain ⟨e, he, -⟩ :=
          reach_cross safe start [] vis hst hfull v n hr hv
        exact absurd he (List.not_mem_nil e)
    | (cur, path) :: rest, hQ, hqv, hsort, hspread, hmin, hproc, hfull, hfuel =>
      have hEcur : QEntryOK start safe (cur, path) :=
        hQ _ (List.mem_cons_self _ _)
      by_cases hg : goal ∈ get_neighbors cur
      · -- the dequeued node sees the goal: return path ++ [goal]
        have hscan := bfsScan_mem_goal goal safe path (get_neighbors cur) vis [] hg
        rcases hEq : bfsScan goal safe path (get_neighbors cur) vis [] with ⟨r1, r2, r3⟩
        rw [hEq] at hscan
        simp only at hscan
        subst hscan
        have hres : bfsAux goal safe (fuel + 1) ((cur, path) :: rest) vis =
            some (path ++ [goal]) := by
          simp only [bfsAux]
          rw [hEq]
        have hmm := head_min_reach start safe cur path rest vis hst hsort hmin hfull
        refine ⟨fun p hp => ?_, fun hc => by rw [hres] at hc; cases hc⟩
        rw [hres] at hp
        have hp' : p = path ++ [goal] := Option.some_inj.mp hp.symm
        subst hp'
        obtain ⟨hh, hl, hcn, hs⟩ := hEcur
        constructor
        · refine ⟨head_append_left hh, List.getLast?_concat path, ?_, ?_⟩
          · refine List.chain'_append.mpr ⟨hcn, List.chain'_singleton goal, ?_⟩
            intro x hx y hy
            have hx' : x = cur := by
              rw [hl] at hx
              exact (Option.mem_some_iff.mp hx).symm
            have hy' : y = goal := (Option.mem_some_iff.mp hy).symm
            rw [hx', hy']
            exact hg
          · intro x hx
            cases path with
            | nil => cases hh
            | cons a t =>
              have hx' : x ∈ t := by
                have hdrop : ((a :: t) ++ [goal]).drop 1 = t ++ [goal] := rfl
                rw [hdrop, List.dropLast_concat] at hx
                exact hx
              exact hs x hx'
        · intro v n hr hadj
          have hlen : (path ++ [goal]).length = path.length + 1 := by simp
          rw [hlen]
          by_cases hv : v ∈ vis
          · have hvq : v ∈ ((cur, path) :: rest).map Prod.fst := by
              by_contra hc
              exact hproc v hv hc hadj
            have := hmm.2 v n hr hvq
            omega
          · have := hmm.1 v n hr hv
            omega
      · -- no goal among the neighbours: enqueue and recurse
        obtain ⟨extra, hE, hP, hN, hM⟩ :=
          bfsScan_none_spec goal safe path (get_neighbors cur) vis [] hg
        have hres : bfsAux goal safe (fuel + 1) ((cur, path) :: rest) vis =
            bfsAux goal safe fuel (rest ++ extra)
              ((extra.map Prod.fst).reverse ++ vis) := by
          simp only [bfsAux]
          rw [hE]
          dsimp only
          rw [List.nil_append]
        have hmm := head_min_reach start safe cur path rest vis hst hsort hmin hfull
        have hPlen : ∀ e ∈ extra, e.2.length = path.length + 1 := by
          intro e he
          rw [(hP e he).2.2.2]
          simp
        have hheadle : ∀ e ∈ rest, path.length ≤ e.2.length := by
          intro e he
          exact (List.pairwise_cons.mp hsort).1 _
            (List.mem_map_of_mem (fun e => e.2.length) he)
        -- re-establish every invariant for the new state
        have h1' : ∀ e ∈ rest ++ extra, QEntryOK start safe e := by
          intro e he
          rcases List.mem_append.mp he with he' | he'
          · exact hQ e (List.mem_cons_of_mem _ he')
          · obtain ⟨ha, hb, -, hd⟩ := hP e he'
            have := qentry_extend start safe hEcur ha hb
            rw [← hd] at this
            have he2 : e = (e.1, e.2) := rfl
            rw [he2]
            exact this
        have h2' : ((extra.map Prod.fst).reverse ++ vis).Nodup := hN hnd
        have h3' : ∀ v ∈ (extra.map Prod.fst).reverse ++ vis, v ∈ start :: safe := by
          intro v hv
          rcases List.mem_append.mp hv with hv' | hv'
          · obtain ⟨e, he, he1⟩ := List.mem_map.mp (List.mem_reverse.mp hv')
            exact List.mem_cons_of_mem _ (he1 ▸ (hP e he).2.1)
          · exact hvs v hv'
        have h4' : ∀ e ∈ rest ++ extra, e.1 ∈ (extra.map Prod.fst).reverse ++ vis := by
          intro e he
          rcases List.mem_append.mp he with he' | he'
          · exact List.mem_append.mpr (Or.inr (hqv e (List.mem_cons_of_mem _ he')))
          · exact List.mem_append.mpr (Or.inl
              (List.mem_reverse.mpr (List.mem_map_of_mem Prod.fst he')))
        have h5' : start ∈ (extra.map Prod.fst).reverse ++ vis :=
          List.mem_append.mpr (Or.inr hst)
        have h6' : ((rest ++ extra).map (fun e => e.2.length)).Pairwise (· ≤ ·) := by
          rw [List.map_append]
          refine List.pairwise_append.mpr ⟨(List.pairwise_cons.mp hsort).2, ?_, ?_⟩
          · exact pairwise_le_of_const (fun x hx => by
              obtain ⟨e, he, he1⟩ := List.mem_map.mp hx
              rw [← he1]
              exact hPlen e he)
          · intro a ha b hb
            obtain ⟨e, he, he1⟩ := List.mem_map.mp ha
            obtain ⟨e', he', he1'⟩ := List.mem_map.mp hb
            rw [← he1, ← he1', hPlen e' he']
            exact hspread e (List.mem_cons_of_mem _ he) (cur, path)
              (List.mem_cons_self _ _)
        have h7' : ∀ e ∈ rest ++ extra, ∀ e' ∈ rest ++ extra,
            e.2.length ≤ e'.2.length + 1 := by
          intro e he e' he'
          rcases List.mem_append.mp he with h1 | h1 <;>
            rcases List.mem_append.mp he' with h2 | h2
          · exact hspread e (List.mem_cons_of_mem _ h1) e' (List.mem_cons_of_mem _ h2)
          · rw [hPlen e' h2]
            have hx : e.2.length ≤ path.length + 1 :=
              hspread e (List.mem_cons_of_mem _ h1) (cur, path)
                (List.mem_cons_self _ _)
            omega
          · rw [hPlen e h1]
            have := hheadle e' h2
            omega
          · rw [hPlen e h1, hPlen e' h2]
            omega
        have h8' : ∀ e ∈ rest ++ extra, ∀ n, Reach safe start e.1 n →
            e.2.length ≤ n + 1 := by
          intro e he n hr
          rcases List.mem_append.mp he with h1 | h1
          · exact hmin e (List.mem_cons_of_mem _ h1) n hr
          · rw [hPlen e h1]
            have := hmm.1 e.1 n hr (hP e h1).2.2.1
            omega
        have h9' : ∀ u ∈ (extra.map Prod.fst).reverse ++ vis,
            u ∉ (rest ++ extra).map Prod.fst → goal ∉ get_neighbors u := by
          intro u hu hunq
          rcases List.mem_append.mp hu with hu' | hu'
          · exact absurd (by
              rw [List.map_append]
              exact List.mem_append.mpr (Or.inr (List.mem_reverse.mp hu'))) hunq
          · by_cases huq : u ∈ ((cur, path) :: rest).map Prod.fst
            · rcases List.mem_cons.mp huq with rfl | huq'
              · exact hg
              · exact absurd (by
                  rw [List.map_append]
                  exact List.mem_append.mpr (Or.inl huq')) hunq
            · exact hproc u hu' huq
        have h10' : ∀ u ∈ (extra.map Prod.fst).reverse ++ vis,
            u ∉ (rest ++ extra).map Prod.fst →
            ∀ w ∈ get_neighbors u, w ∈ safe →
              w ∈ (extra.map Prod.fst).reverse ++ vis := by
          intro u hu hunq w hw hws
          rcases List.mem_append.mp hu with hu' | hu'
          · exact absurd (by
              rw [List.map_append]
              exact List.mem_append.mpr (Or.inr (List.mem_reverse.mp hu'))) hunq
          · by_cases huq : u ∈ ((cur, path) :: rest).map Prod.fst
            · rcases List.mem_cons.mp huq with rfl | huq'
              · rcases hM w hw hws with h1 | h1
                · exact List.mem_append.mpr (Or.inl (List.mem_reverse.mpr h1))
                · exact List.mem_append.mpr (Or.inr h1)
              · exact absurd (by
                  rw [List.map_append]
                  exact List.mem_append.mpr (Or.inl huq')) hunq
            · exact List.mem_append.mpr (Or.inr (hfull u hu' huq w hw hws))
        have h11' : (rest ++ extra).length + ((start :: safe).dedup).length ≤
            fuel + ((extra.map Prod.fst).reverse ++ vis).length := by
          have hq1 : ((cur, path) :: rest).length = rest.length + 1 := by simp
          have hv1 : ((extra.map Prod.fst).reverse ++ vis).length =
              extra.length + vis.length := by simp
          have hq2 : (rest ++ extra).length = rest.length + extra.length := by simp
          omega
        have hrec := ih (rest ++ extra) ((extra.map Prod.fst).reverse ++ vis)
          h1' h2' h3' h4' h5' h6' h7' h8' h9' h10' h11'
        rw [hres]
        exact hrec

-- ### from a valid path to a reachability witness

theorem validPath_reach (start goal : Coord) (safe : List Coord)
    (p : List Coord) (hvp : ValidPath start goal safe p) (hne : start ≠ goal) :
    ∃ v n, Reach safe start v n ∧ goal ∈ get_neighbors v ∧ n + 2 = p.length := by
  obtain ⟨hh, hl, hc, hs⟩ := hvp
  have hpne : p ≠ [] := by intro h; subst h; cases hh
  have hgl : p.getLast hpne = goal := by
    rw [List.getLast?_eq_getLast p hpne] at hl
    exact Option.some_inj.mp hl
  have hdec : p.dropLast ++ [goal] = p := by
    rw [← hgl]
    exact List.dropLast_append_getLast hpne
  cases hq : p.dropLast with
  | nil =>
    exfalso
    have hpg : p = [goal] := by rw [← hdec, hq]; rfl
    rw [hpg] at hh
    exact hne (Option.some_inj.mp hh.symm)
  | cons b t =>
    have hh' : (b :: t).head? = some start := by
      rw [← hdec, hq] at hh
      exact hh
    obtain ⟨u, hu⟩ : ∃ u, (b :: t).getLast? = some u :=
      ⟨(b :: t).getLast (by simp), List.getLast?_eq_getLast _ (by simp)⟩
    have hc2 : ((b :: t) ++ [goal]).Chain' (fun a b => b ∈ get_neighbors a) := by
      rw [← hq, hdec]
      exact hc
    have hc' := List.chain'_append.mp hc2
    have hadj : goal ∈ get_neighbors u := by
      refine hc'.2.2 u ?_ goal rfl
      rw [hu]; rfl
    have hsafe' : ∀ x ∈ (b :: t).drop 1, x ∈ safe := by
      intro x hx
      refine hs x ?_
      have h1 : p.drop 1 = t ++ [goal] := by rw [← hdec, hq]; rfl
      rw [h1, List.dropLast_concat]
      exact hx
    have hre := chain_reach safe start (b :: t) u hh' hu hc'.1 hsafe'
    refine ⟨u, t.length, ?_, hadj, ?_⟩
    · have hlen : (b :: t).length - 1 = t.length := by simp
      rw [hlen] at hre
      exact hre
    · rw [← hdec, hq]
      simp

/-- C2 (amended): `bfs_pathfinder` returns a shortest grid path from start
to goal whose every *interior* tile is traversable (start and goal
themselves are never checked against the traversable set), and returns
`None` exactly when no such path exists; on the 3x3 grid minus its centre
it returns the expected 5-coordinate path avoiding the centre, and `None`
for a goal outside the grid. -/
theorem C2_bfs_interior_shortest_path :
    (∀ start goal safe (p : List Coord),
      bfs_pathfinder start goal safe = some p →
        ValidPath start goal safe p ∧
        ∀ p', ValidPath start goal safe p' → p.length ≤ p'.length) ∧
    (∀ start goal safe, bfs_pathfinder start goal safe = none →
      ¬ ∃ p, ValidPath start goal safe p) ∧
    bfs_pathfinder (0, 0) (2, 2) grid8 =
      some [(0, 0), (1, 0), (2, 0), (2, 1), (2, 2)] ∧
    (1, 1) ∉ grid8 ∧
    bfs_pathfinder (0, 0) (5, 5) grid8 = none := by
  have hmain : ∀ start goal safe,
      (∀ p, bfs_pathfinder start goal safe = some p →
        ValidPath start goal safe p ∧
        ∀ p', ValidPath start goal safe p' → p.length ≤ p'.length) ∧
      (bfs_pathfinder start goal safe = none →
        ¬ ∃ p, ValidPath start goal safe p) := by
    intro start goal safe
    unfold bfs_pathfinder
    by_cases hsg : start = goal
    · rw [if_pos hsg]
      subst hsg
      constructor
      · intro p hp
        have hp' : p = [start] := Option.some_inj.mp hp.symm
        subst hp'
        constructor
        · exact ⟨rfl, rfl, List.chain'_singleton _, by simp⟩
        · intro p' hvp'
          have : p' ≠ [] := by
            intro h
            rw [h] at hvp'
            cases hvp'.1
          have := List.length_pos.mpr this
          simpa using this
      · intro h
        cases h
    · rw [if_neg hsg]
      have hspec := bfsAux_spec start goal safe (safe.dedup.length + 1)
        [(start, [start])] [start]
        (by
          intro e he
          rw [List.mem_singleton.mp he]
          exact ⟨rfl, rfl, List.chain'_singleton _, by simp⟩)
        (List.nodup_singleton start)
        (by
          intro v hv
          rw [List.mem_singleton.mp hv]
          exact List.mem_cons_self _ _)
        (by
          intro e he
          rw [List.mem_singleton.mp he]
          exact List.mem_singleton.mpr rfl)
        (List.mem_singleton.mpr rfl)
        (List.pairwise_singleton _ _)
        (by
          intro e he e' he'
          rw [List.mem_singleton.mp he, List.mem_singleton.mp he']
          omega)
        (by
          intro e he n _
          rw [List.mem_singleton.mp he]
          show [start].length ≤ n + 1
          simp only [List.length_singleton]
          omega)
        (by
          intro u hu hc
          exact absurd (show u ∈ List.map Prod.fst [(start, [start])] from hu) hc)
        (by
          intro u hu hc
          exact absurd (show u ∈ List.map Prod.fst [(start, [start])] from hu) hc)
        (by
          have : ((start :: safe).dedup).length ≤ safe.dedup.length + 1 := by
            by_cases hm : start ∈ safe
            · rw [List.dedup_cons_of_mem hm]
              omega
            · rw [List.dedup_cons_of_not_mem hm]
              simp
          simp only [List.length_singleton]
          omega)
      constructor
      · intro p hp
        obtain ⟨hvp, hminim⟩ := hspec.1 p hp
        refine ⟨hvp, ?_⟩
        intro p' hvp'
        obtain ⟨v, n, hr, hadj, hlen⟩ := validPath_reach start goal safe p' hvp' hsg
        have := hminim v n hr hadj
        omega
      · intro h ⟨p', hvp'⟩
        obtain ⟨v, n, hr, hadj, -⟩ := validPath_reach start goal safe p' hvp' hsg
        exact hspec.2 h v n hr hadj
  refine ⟨fun s g sf p => (hmain s g sf).1 p, fun s g sf => (hmain s g sf).2,
    by decide, by decide, by decide⟩

/-- C2 counterexample: with an empty traversable set `bfs_pathfinder`
still returns the path `[(0,0), (1,0)]`, though neither its start nor its
goal lies in the set, refuting "every tile of the returned path lies in
the traversable set (including start and goal)". -/
theorem C2_path_outside_traversable :
    bfs_pathfinder (0, 0) (1, 0) [] = some [(0, 0), (1, 0)] ∧
    ((0, 0) : Coord) ∉ ([] : List Coord) ∧
    ((1, 0) : Coord) ∉ ([] : List Coord) := by
  decide

theorem C2_bfs_interior_shortest_path_witness :
    ValidPath (0, 0) (2, 2) grid8 [(0, 0), (1, 0), (2, 0), (2, 1), (2, 2)] :=
  (C2_bfs_interior_shortest_path.1 (0, 0) (2, 2) grid8
    [(0, 0), (1, 0), (2, 0), (2, 1), (2, 2)] C2_bfs_interior_shortest_path.2.2.1).1
